import Mathlib

/-!
Shallow embedding of the motor-unit editing engine of `src/src/app/MUeditManual.py`
(class `MUeditManual`).  Signal samples are rationals; discharge times are
natural sample indices; the per-grid pulse-train matrices are lists of rows
together with their column count (a numpy array keeps its column count even
with zero rows).  The Python dicts keyed by `(array_idx, mu_idx)` tuples are
association lists with first-match lookup; insertion prepends, which gives the
same lookup semantics as dict assignment.
-/

namespace MUedit

abbrev Row : Type := List ℚ

/-- One grid of the `Pulsetrain` list: a numpy matrix of shape
(number of units) x `ncols`, kept as its rows plus the column count. -/
structure Grid where
  ncols : ℕ
  rows : List Row
deriving DecidableEq

abbrev Key : Type := ℕ × ℕ

/-- First-match lookup in an association list (the Python dict read `d[k]` /
`d.get(k, default)`). -/
def dlookup {α : Type} : List (Key × α) → Key → Option α
  | [], _ => none
  | e :: rest, k => if e.1 = k then some e.2 else dlookup rest k

/-- Dict assignment `d[k] = v`: prepending gives the same observable lookup
behaviour as overwriting. -/
def dinsert {α : Type} (d : List (Key × α)) (k : Key) (v : α) : List (Key × α) :=
  (k, v) :: d

/-- Replace the element at index `i` (out of range: unchanged), as numpy row
assignment `a[i, :] = r` on an in-range index. -/
def modifyAt {α : Type} : List α → ℕ → (α → α) → List α
  | [], _, _ => []
  | a :: t, 0, f => f a :: t
  | a :: t, n + 1, f => a :: modifyAt t n f

/-- The editing session state of `MUeditManual`: `MUedition["edition"]`
(`Pulsetrain`, `Dischargetimes`, `silval`, `silvalcon`), the sampling
frequency `signal["fsamp"]`, and the `Backup` dict
(`lock`, `Pulsetrain`, `Dischargetimes`). -/
structure Session where
  Pulsetrain : List Grid
  Dischargetimes : List (Key × List ℕ)
  silval : List (Key × ℚ)
  silvalcon : List (Key × List (ℚ × ℚ))
  fsamp : ℕ
  lock : ℕ
  backupPT : Option Row
  backupDT : Option (List ℕ)
deriving DecidableEq

/-- `MUedition["edition"]["Pulsetrain"][g][u, :]`. -/
def Session.row (s : Session) (g u : ℕ) : Row :=
  ((s.Pulsetrain.getD g ⟨0, []⟩).rows).getD u []

/-- `MUedition["edition"]["Dischargetimes"].get((g, u))`. -/
def Session.dtAt (s : Session) (k : Key) : Option (List ℕ) :=
  dlookup s.Dischargetimes k

/-- `MUedition["edition"]["silval"].get((g, u))`. -/
def Session.silAt (s : Session) (k : Key) : Option ℚ :=
  dlookup s.silval k

/-- `MUedition["edition"]["silvalcon"].get((g, u))`. -/
def Session.silconAt (s : Session) (k : Key) : Option (List (ℚ × ℚ)) :=
  dlookup s.silvalcon k

/-- `Pulsetrain[g][u, :] = r`. -/
def Session.setRow (s : Session) (g u : ℕ) (r : Row) : Session :=
  { s with Pulsetrain := modifyAt s.Pulsetrain g (fun gr => ⟨gr.ncols, modifyAt gr.rows u (fun _ => r)⟩) }

/-- `calculate_silval(array_idx, mu_idx)` (MUeditManual.py lines 432-472).
The helpers `getsil` and `refinesil` live in `core.utils.manual_editing`,
which is not part of this source tree, so they are taken as parameters
`G` and `R`.  With fewer than 3 discharge times the method stores
`silval = 0` and `silvalcon = np.zeros((1, 2))`, i.e. the single all-zero
pair; otherwise it stores the `getsil` / `refinesil` outputs.  The method
also writes the (possibly defaulted) discharge-time array back into the dict. -/
def calculate_silval (G : Row → ℕ → ℚ) (R : Row → List ℕ → ℕ → List (ℚ × ℚ))
    (s : Session) (g u : ℕ) : Session :=
  let dts := (s.dtAt (g, u)).getD []
  let s1 := { s with Dischargetimes := dinsert s.Dischargetimes (g, u) dts }
  if dts.length > 2 then
    { s1 with silval := dinsert s1.silval (g, u) (G (s.row g u) s.fsamp),
              silvalcon := dinsert s1.silvalcon (g, u) (R (s.row g u) dts s.fsamp) }
  else
    { s1 with silval := dinsert s1.silval (g, u) 0,
              silvalcon := dinsert s1.silvalcon (g, u) [(0, 0)] }

/-- Body of `flag_mu_for_deletion_button_pushed` for one checked unit
(MUeditManual.py lines 1330-1348): back up the unit, zero its pulse train and
set the two-element sentinel `[1, fsamp]` as its discharge times.  `silval` is
only read (for the checkbox label), never recomputed. -/
def flag_mu (s : Session) (g u : ℕ) : Session :=
  { s with backupPT := some (s.row g u),
           backupDT := some ((s.dtAt (g, u)).getD []),
           Pulsetrain := modifyAt s.Pulsetrain g
             (fun gr => ⟨gr.ncols, modifyAt gr.rows u (fun r => r.map (fun _ => (0 : ℚ)))⟩),
           Dischargetimes := dinsert s.Dischargetimes (g, u) [1, s.fsamp] }

/-- Flagging a set of checked units is the fold of the single-unit body over
the checkbox list. -/
def flag_set (s : Session) (F : List Key) : Session :=
  F.foldl (fun t k => flag_mu t k.1 k.2) s

/-- The flagged-for-deletion test of `remove_flagged_mu_button_pushed`
(MUeditManual.py lines 1571-1579): all-zero pulse-train row, and exactly the
two discharge times `[1, fsamp]` (a missing dict entry defaults to an empty
array, which fails the length test). -/
def flaggedTest (fs : ℕ) (row : Row) (odt : Option (List ℕ)) : Bool :=
  row.all (fun x => x == 0) &&
  (match odt with
   | some d => d.length == 2 && d.getD 0 0 == 1 && d.getD 1 0 == fs
   | none => false)

/-- Accumulator of the clean collections built by
`remove_flagged_mu_button_pushed` (`clean_pulsetrain`, `clean_dischargetimes`,
`clean_silval`, `clean_silvalcon`). -/
structure CleanAcc where
  pt : List Grid
  dt : List (Key × List ℕ)
  sil : List (Key × ℚ)
  silcon : List (Key × List (ℚ × ℚ))

/-- The record-copy loop `for mu_idx, new_idx in enumerate(np.where(keep_mask)[0])`
applied to one dict: walking the kept old indices with a dense counter `j`,
entry `(g, old)` of `src`, when present, is stored under the dense key
`(g, j)` (MUeditManual.py lines 1587-1597). -/
def copyKept {α : Type} (src : List (Key × α)) (g : ℕ) :
    List ℕ → ℕ → List (Key × α) → List (Key × α)
  | [], _, dst => dst
  | old :: rest, j, dst =>
      copyKept src g rest (j + 1)
        (match dlookup src (g, old) with
         | some v => dinsert dst (g, j) v
         | none => dst)

/-- The kept (not flagged) unit indices of grid `g`, in order:
`np.where(keep_mask)[0]` of MUeditManual.py lines 1566-1580. -/
def keepList (s : Session) (g : ℕ) : List ℕ :=
  let gr := s.Pulsetrain.getD g ⟨0, []⟩
  (List.range gr.rows.length).filter
    (fun u => ¬ flaggedTest s.fsamp (gr.rows.getD u []) (s.dtAt (g, u)))

/-- One iteration of the grid loop of `remove_flagged_mu_button_pushed`
(MUeditManual.py lines 1554-1600): build the keep mask, append either the
filtered rows or an empty matrix keeping the original column count, and copy
the kept units' records to dense indices. -/
def cleanGrid (s : Session) (acc : CleanAcc) (g : ℕ) : CleanAcc :=
  let gr := s.Pulsetrain.getD g ⟨0, []⟩
  let keep := keepList s g
  if keep.isEmpty then
    { acc with pt := acc.pt ++ [⟨gr.ncols, []⟩] }
  else
    { pt := acc.pt ++ [⟨gr.ncols, keep.map (fun u => gr.rows.getD u [])⟩],
      dt := copyKept s.Dischargetimes g keep 0 acc.dt,
      sil := copyKept s.silval g keep 0 acc.sil,
      silcon := copyKept s.silvalcon g keep 0 acc.silcon }

/-- `remove_flagged_mu_button_pushed` with cooperative cancellation
(MUeditManual.py lines 1531-1608).  The progress dialog is polled at the top
of the grid loop; since `wasCanceled` is monotone, the grids processed before
the first cancelled poll form a prefix, and `k` is the length of that prefix.
After the loop — cancelled or not — the four collections are replaced by the
clean versions built so far. -/
def remove_flagged_upto (k : ℕ) (s : Session) : Session :=
  let n := min k s.Pulsetrain.length
  let acc := (List.range n).foldl (cleanGrid s) ⟨[], [], [], []⟩
  { s with Pulsetrain := acc.pt, Dischargetimes := acc.dt,
           silval := acc.sil, silvalcon := acc.silcon }

/-- `remove_flagged_mu_button_pushed` run to completion (never cancelled). -/
def remove_flagged (s : Session) : Session :=
  remove_flagged_upto s.Pulsetrain.length s

/-- `lock_spikes_button_pushed` (MUeditManual.py lines 1022-1024): set
`Backup["lock"] = 1`. -/
def lock_spikes_button (s : Session) : Session :=
  { s with lock := 1 }

/-- `undo_button_pushed` (MUeditManual.py lines 1279-1311): return unchanged
when `Backup["Pulsetrain"]` is `None`; otherwise restore the backed-up pulse
train and discharge times into the selected unit `(g, u)` and recompute its
SIL.  The two backup slots are always written together, so the `getD []` on
the discharge-time slot only covers states the program cannot reach. -/
def undo_button (G : Row → ℕ → ℚ) (R : Row → List ℕ → ℕ → List (ℚ × ℚ))
    (s : Session) (g u : ℕ) : Session :=
  match s.backupPT with
  | none => s
  | some bp =>
      calculate_silval G R
        { s.setRow g u bp with
          Dischargetimes := dinsert s.Dischargetimes (g, u) (s.backupDT.getD []) } g u

/-- `remove_outliers_button_pushed` (MUeditManual.py lines 1029-1081): back up
the unit, return if its discharge-time entry is missing or has length at most
1, otherwise replace the discharge times by the output of `remove_outliers`
(a `core.utils.decomposition` function outside this source tree, taken as the
parameter `ro` from the unit's pulse-train row and discharge times).
No SIL recomputation happens on this path. -/
def remove_outliers_button (ro : Row → List ℕ → List ℕ)
    (s : Session) (g u : ℕ) : Session :=
  let s1 := { s with backupPT := some (s.row g u),
                     backupDT := some ((s.dtAt (g, u)).getD []) }
  match s.dtAt (g, u) with
  | none => s1
  | some dts =>
      if dts.length ≤ 1 then s1
      else { s1 with Dischargetimes := dinsert s1.Dischargetimes (g, u) (ro (s.row g u) dts) }

/-- `update_mu_filter_button_pushed` (MUeditManual.py lines 1083-1158): back up
the unit, return if the current view window `idx` is empty, otherwise compute
`(updated_pulse_train, updated_discharge_times)` with `extendfilter` (a
`core.utils.manual_editing` function outside this source tree, taken as the
parameter `ef` from the unit's row, discharge times, window and sampling
rate).  With `Backup["lock"] == 1` only the pulse train is written and the
lock is reset to 0; otherwise both the pulse train and the discharge times
are written.  Either way the SIL is then recomputed. -/
def update_mu_filter (ef : Row → List ℕ → List ℤ → ℕ → Row × List ℕ)
    (G : Row → ℕ → ℚ) (R : Row → List ℕ → ℕ → List (ℚ × ℚ))
    (s : Session) (g u : ℕ) (idx : List ℤ) : Session :=
  let s1 := { s with backupPT := some (s.row g u),
                     backupDT := some ((s.dtAt (g, u)).getD []) }
  if idx.isEmpty then s1
  else
    let res := ef (s.row g u) ((s.dtAt (g, u)).getD []) idx s.fsamp
    if s1.lock = 1 then
      calculate_silval G R { s1.setRow g u res.1 with lock := 0 } g u
    else
      calculate_silval G R
        { s1.setRow g u res.1 with
          Dischargetimes := dinsert s1.Dischargetimes (g, u) res.2 } g u

/-- Forward half of the window walk of `extend_mu_filter_button_pushed`
(MUeditManual.py lines 1216-1242): `count` times, shift the window right by
`step` samples, drop indices at or past the signal end, stop early if the
window empties; collect the window used at each `extendfilter` call. -/
def forward_windows (L step : ℤ) : ℕ → List ℤ → List (List ℤ)
  | 0, _ => []
  | n + 1, idx =>
      let idx2 := (idx.map (fun t => t + step)).filter (fun t => t < L)
      if idx2.isEmpty then [] else idx2 :: forward_windows L step n idx2

/-- Backward half of the window walk (MUeditManual.py lines 1244-1271): shift
the window left by `step`, drop negative indices. -/
def backward_windows (step : ℤ) : ℕ → List ℤ → List (List ℤ)
  | 0, _ => []
  | n + 1, idx =>
      let idx2 := (idx.map (fun t => t - step)).filter (fun t => 0 ≤ t)
      if idx2.isEmpty then [] else idx2 :: backward_windows step n idx2

/-- The full window walk of `extend_mu_filter_button_pushed`: the forward loop
runs `int((signal_length - idx[-1]) / step)` times starting from the current
window, then the backward loop runs `int(idx[0] / step)` times starting again
from the current window.  Each returned list is the window of one incremental
single-window `extendfilter` update. -/
def extend_windows (L step : ℤ) (idx0 : List ℤ) : List (List ℤ) :=
  forward_windows L step ((L - (idx0.getLast?.getD 0)).toNat / step.toNat) idx0 ++
  backward_windows step ((idx0.headD 0).toNat / step.toNat) idx0

/-- One incremental update of the extension walk (MUeditManual.py lines
1226-1238 and 1255-1267): apply `extendfilter` on the window `w` and store
both results into the unit. -/
def extend_step (ef : Row → List ℕ → List ℤ → ℕ → Row × List ℕ)
    (g u : ℕ) (s : Session) (w : List ℤ) : Session :=
  let res := ef (s.row g u) ((s.dtAt (g, u)).getD []) w s.fsamp
  { s.setRow g u res.1 with Dischargetimes := dinsert s.Dischargetimes (g, u) res.2 }

/-- `extend_mu_filter_button_pushed` (MUeditManual.py lines 1160-1277): back up
the unit, return if the current window is empty, otherwise walk the window
across the whole signal of length `L` with `step` half the window width,
updating the unit at each step, and finally recompute the SIL. -/
def extend_mu_filter (ef : Row → List ℕ → List ℤ → ℕ → Row × List ℕ)
    (G : Row → ℕ → ℚ) (R : Row → List ℕ → ℕ → List (ℚ × ℚ))
    (s : Session) (g u : ℕ) (L : ℤ) (idx0 : List ℤ) : Session :=
  let s1 := { s with backupPT := some (s.row g u),
                     backupDT := some ((s.dtAt (g, u)).getD []) }
  if idx0.isEmpty then s1
  else
    let step : ℤ := idx0.length / 2
    let s2 := (extend_windows L step idx0).foldl (extend_step ef g u) s1
    calculate_silval G R s2 g u

/-- Grid-major enumeration of all unit keys, as the nested
`for array_idx ... for mu_idx ...` loops of the batch operations. -/
def unitsOf (grids : List Grid) : List Key :=
  (List.range grids.length).flatMap
    (fun g => (List.range ((grids.getD g ⟨0, []⟩).rows).length).map (fun u => (g, u)))

/-- One iteration of the unit loop of `remove_all_outliers_button_pushed`
(MUeditManual.py lines 1386-1408): if the unit has more than one discharge
time, replace its discharge times by the `remove_outliers` output and
recompute its SIL; otherwise leave it untouched. -/
def outlier_step (ro : Row → List ℕ → List ℕ)
    (G : Row → ℕ → ℚ) (R : Row → List ℕ → ℕ → List (ℚ × ℚ))
    (s : Session) (k : Key) : Session :=
  let dts := (s.dtAt k).getD []
  if dts.length > 1 then
    calculate_silval G R
      { s with Dischargetimes := dinsert s.Dischargetimes k (ro (s.row k.1 k.2) dts) }
      k.1 k.2
  else s

/-- `remove_all_outliers_button_pushed` with cooperative cancellation
(MUeditManual.py lines 1354-1416).  The dialog is polled before each unit and
after each grid; monotone cancellation makes the processed units a prefix of
the grid-major enumeration, of length `k`. -/
def remove_all_outliers_upto (ro : Row → List ℕ → List ℕ)
    (G : Row → ℕ → ℚ) (R : Row → List ℕ → ℕ → List (ℚ × ℚ))
    (k : ℕ) (s : Session) : Session :=
  ((unitsOf s.Pulsetrain).take k).foldl (outlier_step ro G R) s

/-- `remove_all_outliers_button_pushed` run to completion. -/
def remove_all_outliers (ro : Row → List ℕ → List ℕ)
    (G : Row → ℕ → ℚ) (R : Row → List ℕ → ℕ → List (ℚ × ℚ))
    (s : Session) : Session :=
  (unitsOf s.Pulsetrain).foldl (outlier_step ro G R) s

/-- One iteration of the unit loop of `update_all_mu_filters_button_pushed`
(MUeditManual.py lines 1446-1521): if the unit has more than one discharge
time, recompute its pulse train and spikes from the grid's EMG data and its
discharge times and recompute its SIL.  The numeric kernel (signal extension,
whitening, pseudo-inverse, peak finding, k-means classification) uses the
signal data and library code outside this source tree and is taken as the
parameter `uf` from the grid index and the discharge times. -/
def filter_step (uf : ℕ → List ℕ → Row × List ℕ)
    (G : Row → ℕ → ℚ) (R : Row → List ℕ → ℕ → List (ℚ × ℚ))
    (s : Session) (k : Key) : Session :=
  let dts := (s.dtAt k).getD []
  if dts.length > 1 then
    let res := uf k.1 dts
    calculate_silval G R
      { s.setRow k.1 k.2 res.1 with
        Dischargetimes := dinsert s.Dischargetimes k res.2 }
      k.1 k.2
  else s

/-- `update_all_mu_filters_button_pushed` with cooperative cancellation
(MUeditManual.py lines 1418-1529), `k` the length of the processed prefix. -/
def update_all_filters_upto (uf : ℕ → List ℕ → Row × List ℕ)
    (G : Row → ℕ → ℚ) (R : Row → List ℕ → ℕ → List (ℚ × ℚ))
    (k : ℕ) (s : Session) : Session :=
  ((unitsOf s.Pulsetrain).take k).foldl (filter_step uf G R) s

/-- `update_all_mu_filters_button_pushed` run to completion. -/
def update_all_filters (uf : ℕ → List ℕ → Row × List ℕ)
    (G : Row → ℕ → ℚ) (R : Row → List ℕ → ℕ → List (ℚ × ℚ))
    (s : Session) : Session :=
  (unitsOf s.Pulsetrain).foldl (filter_step uf G R) s

/-- Modelled from the spec: `extend_emg` lives in
`core.utils.decomposition.extend_emg`, which is not in this source tree.
Spec 4.1: the extended observation has `C * R` rows and `N + R - 1` columns,
where row block `r` is the original matrix shifted right by `r` samples and
zero-padded.  The caller at MUeditManual.py lines 1462-1465 allocates exactly
the shape `(C * extension_factor, N + extension_factor - 1)` for its output. -/
def extend_emg (emg : List Row) (R : ℕ) : List Row :=
  (List.range R).flatMap
    (fun r => emg.map (fun ch => List.replicate r (0 : ℚ) ++ ch ++ List.replicate (R - 1 - r) (0 : ℚ)))

/-- The amplitudes `pulse_train[peaks]` of the detected peaks. -/
def peakAmps (pt : Row) (peaks : List ℕ) : List ℚ :=
  peaks.map (fun p => pt.getD p 0)

/-- Trace normalization of `update_all_mu_filters_button_pushed`
(MUeditManual.py lines 1489-1494): with at least 10 detected peaks, divide the
trace by the mean of the last 10 entries of the ascending sort of the peak
amplitudes (`np.sort(pulse_train[peaks])[-10:]`); with 1 to 9 peaks, divide by
the mean of all peak amplitudes; with no peaks, leave the trace unchanged. -/
def normalize_pulse_train (pt : Row) (peaks : List ℕ) : Row :=
  let amps := peakAmps pt peaks
  if peaks.length ≥ 10 then
    let top := (amps.insertionSort (fun a b => a ≤ b)).drop (amps.length - 10)
    pt.map (fun x => x / (top.sum / 10))
  else if peaks.length > 0 then
    pt.map (fun x => x / (amps.sum / amps.length))
  else pt

/-- The value `calculate_silval` stores as the unit's SIL, as a function of the
unit's (current) pulse-train row and discharge times. -/
def silOf (G : Row → ℕ → ℚ) (row : Row) (dts : List ℕ) (fs : ℕ) : ℚ :=
  if dts.length > 2 then G row fs else 0

/-- The value `calculate_silval` stores as the unit's continuous SIL. -/
def silconOf (R : Row → List ℕ → ℕ → List (ℚ × ℚ))
    (row : Row) (dts : List ℕ) (fs : ℕ) : List (ℚ × ℚ) :=
  if dts.length > 2 then R row dts fs else [(0, 0)]

/-- Bundled observable state of one unit: pulse-train row, discharge times,
SIL, continuous SIL. -/
def unitView (s : Session) (k : Key) :
    Row × Option (List ℕ) × Option ℚ × Option (List (ℚ × ℚ)) :=
  (s.row k.1 k.2, s.dtAt k, s.silAt k, s.silconAt k)

/-- The shape of the per-grid collection: each grid's column count and unit
count. -/
def gridShape (grids : List Grid) : List (ℕ × ℕ) :=
  grids.map (fun gr => (gr.ncols, gr.rows.length))

/-- The per-unit loop of `remove_duplicates_within_grids_button_pushed`
(MUeditManual.py lines 1655-1658): walking the surviving unit indices in
order, store that unit's deduplicated discharge times and recompute its SIL. -/
def within_inner (G : Row → ℕ → ℚ) (R : Row → List ℕ → ℕ → List (ℚ × ℚ))
    (g : ℕ) (uDts : List (List ℕ)) : List ℕ → Session → Session
  | [], t => t
  | u :: rest, t =>
      within_inner G R g uDts rest
        (calculate_silval G R
          { t with Dischargetimes := dinsert t.Dischargetimes (g, u) (uDts.getD u []) } g u)

/-- One iteration of the grid loop of
`remove_duplicates_within_grids_button_pushed` (MUeditManual.py lines
1625-1658): skip an empty grid, otherwise collect the grid's discharge times
(missing entries default to empty), run the out-of-tree `remove_duplicates`
kernel `rdW` on the grid's pulse trains and discharge times, replace the
grid's rows with the unique pulse trains, then store each surviving unit's
discharge times and recompute its SIL. -/
def within_step (rdW : List Row → List (List ℕ) → List (List ℕ) × List Row)
    (G : Row → ℕ → ℚ) (R : Row → List ℕ → ℕ → List (ℚ × ℚ))
    (t : Session) (g : ℕ) : Session :=
  let gr := t.Pulsetrain.getD g ⟨0, []⟩
  if gr.rows.length = 0 then t
  else
    let dts := (List.range gr.rows.length).map (fun u => (t.dtAt (g, u)).getD [])
    let res := rdW gr.rows dts
    let t1 := { t with Pulsetrain := modifyAt t.Pulsetrain g (fun gr0 => ⟨gr0.ncols, res.2⟩) }
    within_inner G R g res.1 (List.range res.2.length) t1

/-- `remove_duplicates_within_grids_button_pushed` (MUeditManual.py lines
1613-1661): the grid loop over all grids. -/
def remove_duplicates_within (rdW : List Row → List (List ℕ) → List (List ℕ) × List Row)
    (G : Row → ℕ → ℚ) (R : Row → List ℕ → ℕ → List (ℚ × ℚ)) (s : Session) : Session :=
  (List.range s.Pulsetrain.length).foldl (within_step rdW G R) s

/-- `np.where(unique_muscle == array_idx)[0]` of
`remove_duplicates_between_grids_button_pushed` (MUeditManual.py line 1711):
the positions of the kernel outputs tagged with grid `g`, in order. -/
def betweenPos (muscle : List ℕ) (g : ℕ) : List ℕ :=
  (List.range muscle.length).filter (fun i => muscle.getD i 0 == g)

/-- The `(array_idx, mu_idx)` pairs at which the rebuild loop of
`remove_duplicates_between_grids_button_pushed` calls `calculate_silval`
(MUeditManual.py lines 1710-1724): for each grid with surviving units, the
dense indices of those units. -/
def betweenCalcKeys (oldLen : ℕ) (muscle : List ℕ) : List Key :=
  (List.range oldLen).flatMap
    (fun g => (List.range (betweenPos muscle g).length).map (fun j => (g, j)))

/-- The collected-units call to the out-of-tree
`remove_duplicates_between_arrays` kernel `rdB` (MUeditManual.py lines
1674-1701): all units' pulse trains, discharge times (missing entries default
to empty) and grid tags, collected grid-major; the result is
`(unique_discharge_times, unique_pulse_train, unique_muscle)`. -/
def betweenRes (rdB : List Row → List (List ℕ) → List ℕ → List (List ℕ) × List Row × List ℕ)
    (s : Session) : List (List ℕ) × List Row × List ℕ :=
  rdB ((unitsOf s.Pulsetrain).map (fun k => s.row k.1 k.2))
    ((unitsOf s.Pulsetrain).map (fun k => (s.dtAt k).getD []))
    ((unitsOf s.Pulsetrain).map (fun k => k.1))

/-- `remove_duplicates_between_grids_button_pushed` (MUeditManual.py lines
1663-1745).  The rebuild loop builds `new_pulsetrain` and
`new_dischargetimes` from the kernel result alone, while its
`calculate_silval` calls (line 1724) read and write the editing state that
still holds the pre-removal collections — the two are independent, so they
are computed separately here.  `new_silval`/`new_silvalcon` are built empty
and never installed in the source, and only `Pulsetrain` and
`Dischargetimes` are replaced at the end (lines 1741-1742): the SIL dicts
keep the values the loop computed from the pre-removal data, and the
discharge-time write-backs of `calculate_silval` are discarded.  `T` is the
time-vector length used for the empty-grid fallback shape. -/
def remove_duplicates_between
    (rdB : List Row → List (List ℕ) → List ℕ → List (List ℕ) × List Row × List ℕ)
    (G : Row → ℕ → ℚ) (R : Row → List ℕ → ℕ → List (ℚ × ℚ))
    (T : ℕ) (s : Session) : Session :=
  let res := betweenRes rdB s
  let uDts := res.1
  let uRows := res.2.1
  let uMuscle := res.2.2
  let newPT := (List.range s.Pulsetrain.length).map (fun g =>
    let pos := betweenPos uMuscle g
    if pos.isEmpty then
      (⟨if uRows.length > 0 then (uRows.getD 0 []).length else T, []⟩ : Grid)
    else
      (⟨(uRows.getD (pos.headD 0) []).length, pos.map (fun i => uRows.getD i [])⟩ : Grid))
  let newDT := (List.range s.Pulsetrain.length).foldl (fun d g =>
    (betweenPos uMuscle g).enum.foldl (fun d2 ji =>
      if ji.2 < uDts.length then dinsert d2 (g, ji.1) (uDts.getD ji.2 []) else d2) d) []
  let t2 := (betweenCalcKeys s.Pulsetrain.length uMuscle).foldl
    (fun t k => calculate_silval G R t k.1 k.2) s
  { t2 with Pulsetrain := newPT, Dischargetimes := newDT }

/-- Unit `(g, u)`'s stored SIL reflects its current pulse train and discharge
times: the invariant the spec asserts after every mutating operation. -/
def reflectsAt (G : Row → ℕ → ℚ) (t : Session) (g : ℕ) : Prop :=
  ∀ u, u < ((t.Pulsetrain.getD g ⟨0, []⟩).rows.length) →
    t.silAt (g, u) = some (silOf G (t.row g u) ((t.dtAt (g, u)).getD []) t.fsamp)

/-- The unit indices of grid `g` that are not flagged in `F`, in their
original order: the spec-side description of the units a compaction after
flagging exactly `F` must keep. -/
def keepNotF (s : Session) (F : List Key) (g : ℕ) : List ℕ :=
  (List.range ((s.Pulsetrain.getD g ⟨0, []⟩).rows.length)).filter
    (fun u => decide ((g, u) ∉ F))

/-- A concrete session for C1: unit `(0, 1)` already matches the deletion
sentinel (all-zero pulse train, discharge times `[1, 2]` at `fsamp = 2`)
although it was never flagged by the operator. -/
def sessC1 : Session :=
  { Pulsetrain := [⟨2, [[1, 1], [0, 0]]⟩],
    Dischargetimes := [((0, 0), [2, 3, 4]), ((0, 1), [1, 2])],
    silval := [((0, 0), 1 / 2), ((0, 1), 1 / 4)], silvalcon := [],
    fsamp := 2, lock := 0, backupPT := none, backupDT := none }

/-- A concrete session for C5: two grids of one healthy unit each, nothing
flagged for deletion. -/
def sessC5 : Session :=
  { Pulsetrain := [⟨2, [[1, 2]]⟩, ⟨2, [[3, 4]]⟩],
    Dischargetimes := [((0, 0), [1, 2]), ((1, 0), [3, 4])],
    silval := [((0, 0), 1)], silvalcon := [],
    fsamp := 10, lock := 0, backupPT := none, backupDT := none }

/-- A concrete session: one grid with one unit, pulse train `[1, 2, 3]`,
two discharge times, sampling frequency 10. -/
def sessC3 : Session :=
  { Pulsetrain := [⟨3, [[1, 2, 3]]⟩],
    Dischargetimes := [((0, 0), [1, 2])],
    silval := [], silvalcon := [],
    fsamp := 10, lock := 0, backupPT := none, backupDT := none }

/-- A concrete session for the C4 witness: one grid, one unit, lock set. -/
def sessC4 : Session :=
  { Pulsetrain := [⟨2, [[5, 7]]⟩],
    Dischargetimes := [((0, 0), [0, 1])],
    silval := [], silvalcon := [],
    fsamp := 4, lock := 1, backupPT := none, backupDT := none }

/-- A concrete session for C2: two units; the backup slot holds unit
`(0, 0)`'s data (it was snapshotted there), and undo is applied to `(0, 1)`. -/
def sessC2 : Session :=
  { Pulsetrain := [⟨2, [[5, 5], [7, 7]]⟩],
    Dischargetimes := [((0, 0), [1, 2, 3]), ((0, 1), [4, 5, 6])],
    silval := [], silvalcon := [],
    fsamp := 10, lock := 0, backupPT := some [5, 5], backupDT := some [1, 2, 3] }

/-- The scenario's starting window: a 1-second window (here the sampling rate
is 10 samples per second, so 10 samples) centred on a 10-second recording of
100 samples, occupying samples 45 to 54. -/
def idxC9 : List ℤ := (List.range 10).map (fun i => (45 + i : ℤ))

/-- The grid that one iteration of the compaction loop appends to
`clean_pulsetrain`: the rows surviving the keep mask, or a 0-row matrix with
the original column count when every unit is flagged. -/
def cleanGridPt (s : Session) (g : ℕ) : Grid :=
  let gr := s.Pulsetrain.getD g ⟨0, []⟩
  let keep := keepList s g
  if keep.isEmpty then ⟨gr.ncols, []⟩ else ⟨gr.ncols, keep.map (fun u => gr.rows.getD u [])⟩

/-- A concrete session for the C10 witness: one grid of 3 columns whose single
unit is flagged (all-zero row, sentinel discharge times at `fsamp = 10`). -/
def sessC10 : Session :=
  { Pulsetrain := [⟨3, [[0, 0, 0]]⟩],
    Dischargetimes := [((0, 0), [1, 10])],
    silval := [((0, 0), 1)], silvalcon := [],
    fsamp := 10, lock := 0, backupPT := none, backupDT := none }

/-- A concrete session for C6: the unit has three discharge times and a
stored SIL of 9/10. -/
def sessC6 : Session :=
  { Pulsetrain := [⟨2, [[1, 2]]⟩],
    Dischargetimes := [((0, 0), [1, 2, 3])],
    silval := [((0, 0), 9 / 10)], silvalcon := [],
    fsamp := 10, lock := 0, backupPT := none, backupDT := none }

section Lemmas

variable {α : Type}

theorem dlookup_dinsert_self (d : List (Key × α)) (k : Key) (v : α) :
    dlookup (dinsert d k v) k = some v := by
  simp [dinsert, dlookup]

theorem dlookup_dinsert_ne (d : List (Key × α)) (k k2 : Key) (v : α) (h : k2 ≠ k) :
    dlookup (dinsert d k v) k2 = dlookup d k2 := by
  simp [dinsert, dlookup, Ne.symm h]

theorem modifyAt_length (l : List α) (i : ℕ) (f : α → α) :
    (modifyAt l i f).length = l.length := by
  induction l generalizing i with
  | nil => rfl
  | cons a t ih =>
      cases i with
      | zero => rfl
      | succ n => simp [modifyAt, ih]

theorem getD_modifyAt_self (l : List α) (i : ℕ) (f : α → α) (d : α) (h : i < l.length) :
    (modifyAt l i f).getD i d = f (l.getD i d) := by
  induction l generalizing i with
  | nil => simp at h
  | cons a t ih =>
      cases i with
      | zero => rfl
      | succ n =>
          simp only [modifyAt, List.getD_cons_succ]
          exact ih n (by simpa using h)

theorem getD_modifyAt_ne (l : List α) (i j : ℕ) (f : α → α) (d : α) (h : j ≠ i) :
    (modifyAt l i f).getD j d = l.getD j d := by
  induction l generalizing i j with
  | nil => rfl
  | cons a t ih =>
      cases i with
      | zero =>
          cases j with
          | zero => exact absurd rfl h
          | succ m => rfl
      | succ n =>
          cases j with
          | zero => rfl
          | succ m =>
              simp only [modifyAt, List.getD_cons_succ]
              exact ih n m (fun hc => h (by simpa using hc))

theorem calculate_silval_Pulsetrain (G : Row → ℕ → ℚ) (R : Row → List ℕ → ℕ → List (ℚ × ℚ))
    (s : Session) (g u : ℕ) :
    (calculate_silval G R s g u).Pulsetrain = s.Pulsetrain := by
  simp only [calculate_silval]
  split <;> rfl

theorem calculate_silval_row (G : Row → ℕ → ℚ) (R : Row → List ℕ → ℕ → List (ℚ × ℚ))
    (s : Session) (g u g2 u2 : ℕ) :
    (calculate_silval G R s g u).row g2 u2 = s.row g2 u2 := by
  simp only [Session.row, calculate_silval_Pulsetrain]

theorem calculate_silval_lock (G : Row → ℕ → ℚ) (R : Row → List ℕ → ℕ → List (ℚ × ℚ))
    (s : Session) (g u : ℕ) :
    (calculate_silval G R s g u).lock = s.lock := by
  simp only [calculate_silval]
  split <;> rfl

theorem calculate_silval_fsamp (G : Row → ℕ → ℚ) (R : Row → List ℕ → ℕ → List (ℚ × ℚ))
    (s : Session) (g u : ℕ) :
    (calculate_silval G R s g u).fsamp = s.fsamp := by
  simp only [calculate_silval]
  split <;> rfl

theorem calculate_silval_dtAt_self (G : Row → ℕ → ℚ) (R : Row → List ℕ → ℕ → List (ℚ × ℚ))
    (s : Session) (g u : ℕ) :
    (calculate_silval G R s g u).dtAt (g, u) = some ((s.dtAt (g, u)).getD []) := by
  simp only [calculate_silval, Session.dtAt]
  split <;> exact dlookup_dinsert_self _ _ _

theorem calculate_silval_dtAt_ne (G : Row → ℕ → ℚ) (R : Row → List ℕ → ℕ → List (ℚ × ℚ))
    (s : Session) (g u : ℕ) (k : Key) (h : k ≠ (g, u)) :
    (calculate_silval G R s g u).dtAt k = s.dtAt k := by
  simp only [calculate_silval, Session.dtAt]
  split <;> exact dlookup_dinsert_ne _ _ _ _ h

theorem calculate_silval_silAt_self (G : Row → ℕ → ℚ) (R : Row → List ℕ → ℕ → List (ℚ × ℚ))
    (s : Session) (g u : ℕ) :
    (calculate_silval G R s g u).silAt (g, u) =
      some (silOf G (s.row g u) ((s.dtAt (g, u)).getD []) s.fsamp) := by
  simp only [calculate_silval, Session.silAt, silOf]
  split <;> simp_all [dlookup_dinsert_self]

theorem calculate_silval_silAt_ne (G : Row → ℕ → ℚ) (R : Row → List ℕ → ℕ → List (ℚ × ℚ))
    (s : Session) (g u : ℕ) (k : Key) (h : k ≠ (g, u)) :
    (calculate_silval G R s g u).silAt k = s.silAt k := by
  simp only [calculate_silval, Session.silAt]
  split <;> exact dlookup_dinsert_ne _ _ _ _ h

theorem calculate_silval_silconAt_self (G : Row → ℕ → ℚ) (R : Row → List ℕ → ℕ → List (ℚ × ℚ))
    (s : Session) (g u : ℕ) :
    (calculate_silval G R s g u).silconAt (g, u) =
      some (silconOf R (s.row g u) ((s.dtAt (g, u)).getD []) s.fsamp) := by
  simp only [calculate_silval, Session.silconAt, silconOf]
  split <;> simp_all [dlookup_dinsert_self]

theorem calculate_silval_silconAt_ne (G : Row → ℕ → ℚ) (R : Row → List ℕ → ℕ → List (ℚ × ℚ))
    (s : Session) (g u : ℕ) (k : Key) (h : k ≠ (g, u)) :
    (calculate_silval G R s g u).silconAt k = s.silconAt k := by
  simp only [calculate_silval, Session.silconAt]
  split <;> exact dlookup_dinsert_ne _ _ _ _ h

theorem setRow_row_self (s : Session) (g u : ℕ) (r : Row)
    (hg : g < s.Pulsetrain.length) (hu : u < ((s.Pulsetrain.getD g ⟨0, []⟩).rows).length) :
    (s.setRow g u r).row g u = r := by
  simp only [Session.setRow, Session.row, getD_modifyAt_self _ _ _ _ hg]
  exact getD_modifyAt_self _ _ _ _ hu

end Lemmas

section ClaimC3


/-- C3 counterexample: with 2 (< 3) discharge times, `calculate_silval` stores
`np.zeros((1, 2))` — the single all-zero pair — as the continuous-SIL record,
not an empty sequence.  The branch taken does not call `getsil`/`refinesil`,
so instantiating them with constant functions loses no generality. -/
theorem C3_silvalcon_not_empty :
    (calculate_silval (fun _ _ => 0) (fun _ _ _ => []) sessC3 0 0).silconAt (0, 0) =
      some [(0, 0)] ∧
    some [((0 : ℚ), (0 : ℚ))] ≠ some ([] : List (ℚ × ℚ)) := by
  constructor
  · rfl
  · decide

/-- C3 (amended): for every unit with fewer than 3 discharge times,
`calculate_silval` stores SIL = 0 and the single all-zero (time, value) pair
(a 1-by-2 zero array) as the continuous-SIL record; with 3 or more discharge
times it stores the `getsil` value and the `refinesil` sequence computed from
the unit's pulse train and discharge times. -/
theorem C3_silval_branches (G : Row → ℕ → ℚ) (R : Row → List ℕ → ℕ → List (ℚ × ℚ))
    (s : Session) (g u : ℕ) :
    (((s.dtAt (g, u)).getD []).length < 3 →
      (calculate_silval G R s g u).silAt (g, u) = some 0 ∧
      (calculate_silval G R s g u).silconAt (g, u) = some [(0, 0)]) ∧
    (3 ≤ ((s.dtAt (g, u)).getD []).length →
      (calculate_silval G R s g u).silAt (g, u) =
        some (G (s.row g u) s.fsamp) ∧
      (calculate_silval G R s g u).silconAt (g, u) =
        some (R (s.row g u) ((s.dtAt (g, u)).getD []) s.fsamp)) := by
  constructor
  · intro h
    rw [calculate_silval_silAt_self, calculate_silval_silconAt_self]
    constructor
    · simp [silOf, Nat.lt_irrefl]
      omega
    · simp [silconOf]
      omega
  · intro h
    rw [calculate_silval_silAt_self, calculate_silval_silconAt_self]
    constructor
    · simp [silOf]
      omega
    · simp [silconOf]
      omega

/-- Witness for `C3_silval_branches` at the concrete session `sessC3`. -/
theorem C3_silval_branches_witness :
    (calculate_silval (fun _ _ => 0) (fun _ _ _ => []) sessC3 0 0).silAt (0, 0) = some 0 ∧
    (calculate_silval (fun _ _ => 0) (fun _ _ _ => []) sessC3 0 0).silconAt (0, 0) =
      some [(0, 0)] :=
  (C3_silval_branches (fun _ _ => 0) (fun _ _ _ => []) sessC3 0 0).1 (by decide)

end ClaimC3

section ClaimC4

/-- C4: in a single-window filter update with the spike lock set, the unit's
pulse train is replaced by the recomputed one, its discharge times are left
unchanged, and the lock is cleared; with the lock clear, both the pulse train
and the discharge times are replaced (and the lock stays clear).  Quantified
over any behaviour `ef` of the out-of-tree `extendfilter` kernel. -/
theorem C4_spike_lock (ef : Row → List ℕ → List ℤ → ℕ → Row × List ℕ)
    (G : Row → ℕ → ℚ) (R : Row → List ℕ → ℕ → List (ℚ × ℚ))
    (s : Session) (g u : ℕ) (idx : List ℤ) (dts : List ℕ)
    (hidx : idx.isEmpty = false)
    (hdt : s.dtAt (g, u) = some dts)
    (hg : g < s.Pulsetrain.length)
    (hu : u < ((s.Pulsetrain.getD g ⟨0, []⟩).rows).length) :
    (s.lock = 1 →
      (update_mu_filter ef G R s g u idx).row g u = (ef (s.row g u) dts idx s.fsamp).1 ∧
      (update_mu_filter ef G R s g u idx).dtAt (g, u) = some dts ∧
      (update_mu_filter ef G R s g u idx).lock = 0) ∧
    (s.lock ≠ 1 →
      (update_mu_filter ef G R s g u idx).row g u = (ef (s.row g u) dts idx s.fsamp).1 ∧
      (update_mu_filter ef G R s g u idx).dtAt (g, u) =
        some (ef (s.row g u) dts idx s.fsamp).2 ∧
      (update_mu_filter ef G R s g u idx).lock = s.lock) := by
  have hrow : ∀ t : Session, t.Pulsetrain = s.Pulsetrain → t.row g u = s.row g u := by
    intro t ht
    simp [Session.row, ht]
  constructor
  · intro hlock
    simp only [update_mu_filter, hidx, Bool.false_eq_true, if_false, hlock, if_true, hdt,
      Option.getD_some]
    have hsr : ∀ r : Row,
        ({ s with backupPT := some (s.row g u), backupDT := some dts }.setRow g u r : Session) =
        { s.setRow g u r with backupPT := some (s.row g u), backupDT := some dts } := by
      intro r
      simp [Session.setRow]
    refine ⟨?_, ?_, ?_⟩
    · rw [calculate_silval_row]
      simp only [Session.row, Session.setRow, getD_modifyAt_self _ _ _ _ hg]
      exact getD_modifyAt_self _ _ _ _ hu
    · rw [calculate_silval_dtAt_self]
      simp [Session.dtAt, Session.setRow, hdt]
      have : dlookup s.Dischargetimes (g, u) = some dts := hdt
      simp [this]
    · rw [calculate_silval_lock]
  · intro hlock
    simp only [update_mu_filter, hidx, Bool.false_eq_true, if_false, hdt, Option.getD_some]
    rw [if_neg (by simpa using hlock)]
    refine ⟨?_, ?_, ?_⟩
    · rw [calculate_silval_row]
      simp only [Session.row, Session.setRow, getD_modifyAt_self _ _ _ _ hg]
      exact getD_modifyAt_self _ _ _ _ hu
    · rw [calculate_silval_dtAt_self]
      simp [Session.dtAt, Session.setRow, dlookup_dinsert_self]
    · rw [calculate_silval_lock]
      simp [Session.setRow]


/-- Witness for `C4_spike_lock`: a locked update replaces the pulse train,
keeps the discharge times and clears the lock. -/
theorem C4_spike_lock_witness :
    (update_mu_filter (fun _ _ _ _ => ([9, 9], [1])) (fun _ _ => 0) (fun _ _ _ => [])
        sessC4 0 0 [0]).row 0 0 = [9, 9] ∧
    (update_mu_filter (fun _ _ _ _ => ([9, 9], [1])) (fun _ _ => 0) (fun _ _ _ => [])
        sessC4 0 0 [0]).dtAt (0, 0) = some [0, 1] ∧
    (update_mu_filter (fun _ _ _ _ => ([9, 9], [1])) (fun _ _ => 0) (fun _ _ _ => [])
        sessC4 0 0 [0]).lock = 0 :=
  (C4_spike_lock (fun _ _ _ _ => ([9, 9], [1])) (fun _ _ => 0) (fun _ _ _ => [])
    sessC4 0 0 [0] [0, 1] (by decide) (by decide) (by decide) (by decide)).1 (by decide)

end ClaimC4

section ClaimC2


/-- C2 counterexample: the claim says undo does nothing when the backup slot
belongs to a different unit than the one being undone; but `undo_button_pushed`
performs no such ownership check — it overwrites unit `(0, 1)` with the backup
taken from unit `(0, 0)`.  The restored pulse train and discharge times do not
depend on the `getsil`/`refinesil` parameters, so constant instantiations lose
no generality. -/
theorem C2_undo_overwrites_other_unit :
    (undo_button (fun _ _ => 0) (fun _ _ _ => []) sessC2 0 1).row 0 1 = [5, 5] ∧
    (undo_button (fun _ _ => 0) (fun _ _ _ => []) sessC2 0 1).dtAt (0, 1) = some [1, 2, 3] ∧
    sessC2.row 0 1 = [7, 7] ∧
    ([5, 5] : Row) ≠ [7, 7] := by
  refine ⟨rfl, rfl, rfl, by decide⟩

/-- C2 (amended): undo restores the backed-up pulse train and discharge times
into the unit currently being undone whenever the backup slot is non-empty —
regardless of which unit the backup was taken from — and does nothing only
when the backup slot is empty. -/
theorem C2_undo_restores_backup (G : Row → ℕ → ℚ) (R : Row → List ℕ → ℕ → List (ℚ × ℚ))
    (s : Session) (g u : ℕ) :
    (s.backupPT = none → undo_button G R s g u = s) ∧
    (∀ bp bd, s.backupPT = some bp → s.backupDT = some bd →
      g < s.Pulsetrain.length → u < ((s.Pulsetrain.getD g ⟨0, []⟩).rows).length →
      (undo_button G R s g u).row g u = bp ∧
      (undo_button G R s g u).dtAt (g, u) = some bd) := by
  constructor
  · intro h
    simp [undo_button, h]
  · intro bp bd hbp hbd hg hu
    simp only [undo_button, hbp, hbd, Option.getD_some]
    constructor
    · rw [calculate_silval_row]
      simp only [Session.row, Session.setRow, getD_modifyAt_self _ _ _ _ hg]
      exact getD_modifyAt_self _ _ _ _ hu
    · rw [calculate_silval_dtAt_self]
      simp [Session.dtAt, Session.setRow, dlookup_dinsert_self]

/-- Witness for `C2_undo_restores_backup` at `sessC2`, undoing unit `(0, 1)`. -/
theorem C2_undo_restores_backup_witness :
    (undo_button (fun _ _ => 0) (fun _ _ _ => []) sessC2 0 1).row 0 1 = [5, 5] ∧
    (undo_button (fun _ _ => 0) (fun _ _ _ => []) sessC2 0 1).dtAt (0, 1) = some [1, 2, 3] :=
  (C2_undo_restores_backup (fun _ _ => 0) (fun _ _ _ => []) sessC2 0 1).2
    [5, 5] [1, 2, 3] rfl rfl (by decide) (by decide)

end ClaimC2

section ClaimC7

/-- C7: for a channel matrix of `C` channels and `N` samples and extension
factor `R ≥ 1`, the extended observation has `C * R` rows, each of
`N + R - 1` columns; in particular 4 channels of 10000 samples with extension
factor 4 give 16 rows of 10003 columns.  The caller at MUeditManual.py lines
1462-1465 allocates exactly this shape. -/
theorem C7_extended_observation_shape (emg : List Row) (Rf C N : ℕ)
    (hR : 1 ≤ Rf) (hC : emg.length = C) (hN : ∀ r ∈ emg, r.length = N) :
    ((extend_emg emg Rf).length = C * Rf ∧
      ∀ row ∈ extend_emg emg Rf, row.length = N + Rf - 1) ∧
    ((extend_emg (List.replicate 4 (List.replicate 10000 (0 : ℚ))) 4).length = 16 ∧
      ∀ row ∈ extend_emg (List.replicate 4 (List.replicate 10000 (0 : ℚ))) 4,
        row.length = 10003) := by
  have main : ∀ (e : List Row) (rf c n : ℕ), 1 ≤ rf → e.length = c →
      (∀ r ∈ e, r.length = n) →
      (extend_emg e rf).length = c * rf ∧
        ∀ row ∈ extend_emg e rf, row.length = n + rf - 1 := by
    intro e rf c n hrf hc hn
    have sum_const : ∀ (l : List ℕ), (l.map (fun _ => c)).sum = l.length * c := by
      intro l
      induction l with
      | nil => simp
      | cons a t ih => simp [ih, Nat.succ_mul, Nat.add_comm]
    constructor
    · simp only [extend_emg, List.length_flatMap]
      have hmap : (List.range rf).map
          (List.length ∘ fun r =>
            List.map (fun ch => List.replicate r 0 ++ ch ++ List.replicate (rf - 1 - r) 0) e) =
          (List.range rf).map (fun _ => c) := by
        apply List.map_congr_left
        intro r hr
        simp [Function.comp, hc]
      rw [hmap, sum_const]
      simp [Nat.mul_comm]
    · intro row hrow
      simp only [extend_emg, List.mem_flatMap, List.mem_range, List.mem_map] at hrow
      obtain ⟨r, hr, ch, hch, hrw⟩ := hrow
      have hchlen : ch.length = n := hn ch hch
      subst hrw
      simp only [List.length_append, List.length_replicate, hchlen]
      omega
  refine ⟨main emg Rf C N hR hC hN, ?_⟩
  have h2 := main (List.replicate 4 (List.replicate 10000 (0 : ℚ))) 4 4 10000
    (by norm_num) (by rw [List.length_replicate])
    (by intro r hr; rw [List.eq_of_mem_replicate hr, List.length_replicate])
  refine ⟨h2.1.trans (by norm_num), fun row hrow => (h2.2 row hrow).trans (by norm_num)⟩

/-- Witness for `C7_extended_observation_shape` on a 2-channel, 1-sample
matrix with extension factor 2. -/
theorem C7_extended_observation_shape_witness :
    (extend_emg [[(1 : ℚ)], [(2 : ℚ)]] 2).length = 2 * 2 :=
  (C7_extended_observation_shape [[(1 : ℚ)], [(2 : ℚ)]] 2 2 1
    (by decide) (by decide) (by decide)).1.1

end ClaimC7

section ClaimC8

/-- C8: in spike classification during a filter update, with at least 10
detected discharge peaks the trace is divided by the mean of the amplitudes of
the 10 largest peaks (there are lists `low` and `top` splitting the peak
amplitudes, `top` of length 10 dominating every element of `low`, and the
divisor is `top`'s mean); with 1 to 9 peaks it is divided by the mean of all
peak amplitudes (MUeditManual.py lines 1489-1494). -/
theorem C8_normalize_by_top_peaks (pt : Row) (peaks : List ℕ) :
    (10 ≤ peaks.length →
      ∃ low top : List ℚ,
        List.Perm (peakAmps pt peaks) (low ++ top) ∧
        top.length = 10 ∧
        (∀ x ∈ low, ∀ y ∈ top, x ≤ y) ∧
        normalize_pulse_train pt peaks = pt.map (fun x => x / (top.sum / 10))) ∧
    (0 < peaks.length → peaks.length < 10 →
      normalize_pulse_train pt peaks =
        pt.map (fun x => x / ((peakAmps pt peaks).sum / peaks.length))) := by
  constructor
  · intro h10
    set amps := peakAmps pt peaks with hamps
    have hlen : amps.length = peaks.length := by
      simp [hamps, peakAmps]
    set srt := amps.insertionSort (fun a b => a ≤ b) with hsrt
    have hperm : List.Perm srt amps := List.perm_insertionSort _ _
    have hslen : srt.length = amps.length := hperm.length_eq
    set k := amps.length - 10 with hk
    refine ⟨srt.take k, srt.drop k, ?_, ?_, ?_, ?_⟩
    · rw [List.take_append_drop]
      exact hperm.symm
    · rw [List.length_drop, hslen]
      omega
    · have hs : List.Sorted (fun a b => a ≤ b) srt := List.sorted_insertionSort _ _
      have hs2 : List.Pairwise (fun a b => a ≤ b) (srt.take k ++ srt.drop k) := by
        rw [List.take_append_drop]
        exact hs
      exact (List.pairwise_append.mp hs2).2.2
    · rw [normalize_pulse_train, if_pos (by omega)]
  · intro hpos hlt
    rw [normalize_pulse_train, if_neg (by omega), if_pos hpos]
    have : (peakAmps pt peaks).length = peaks.length := by simp [peakAmps]
    rw [this]

/-- Witness for `C8_normalize_by_top_peaks`: ten peaks over a ten-sample
trace. -/
theorem C8_normalize_by_top_peaks_witness :
    ∃ low top : List ℚ,
      List.Perm (peakAmps [1, 2, 3, 4, 5, 6, 7, 8, 9, 10]
        [0, 1, 2, 3, 4, 5, 6, 7, 8, 9]) (low ++ top) ∧
      top.length = 10 ∧
      (∀ x ∈ low, ∀ y ∈ top, x ≤ y) ∧
      normalize_pulse_train [1, 2, 3, 4, 5, 6, 7, 8, 9, 10]
          [0, 1, 2, 3, 4, 5, 6, 7, 8, 9] =
        List.map (fun x => x / (top.sum / 10)) [1, 2, 3, 4, 5, 6, 7, 8, 9, 10] :=
  (C8_normalize_by_top_peaks [1, 2, 3, 4, 5, 6, 7, 8, 9, 10]
    [0, 1, 2, 3, 4, 5, 6, 7, 8, 9]).1 (by decide)

end ClaimC8

section ClaimC9


/-- C9: full-signal filter extension started from a 1-second window on a
10-second recording with half-window (0.5 s) steps first walks the window
forward to the signal end, then backward from the original window to the
signal start.  The loop bounds `int((signal_length - idx[-1]) / step)` and
`int(idx[0] / step)` both evaluate to 9, so there are 9 forward and 9
backward incremental single-window updates — 19 updates counting the initial
window already processed — and the initial window together with the 18
walked windows covers every sample of the recording with no gaps. -/
theorem C9_full_signal_extension :
    extend_windows 100 5 idxC9 =
      forward_windows 100 5 9 idxC9 ++ backward_windows 5 9 idxC9 ∧
    (forward_windows 100 5 9 idxC9).length = 9 ∧
    (backward_windows 5 9 idxC9).length = 9 ∧
    1 + (extend_windows 100 5 idxC9).length = 19 ∧
    ((List.range 100).all
      (fun t => (idxC9 ++ (extend_windows 100 5 idxC9).flatten).contains (t : ℤ))) = true := by
  decide

end ClaimC9

section CompactLemmas


theorem cleanGrid_pt (s : Session) (acc : CleanAcc) (g : ℕ) :
    (cleanGrid s acc g).pt = acc.pt ++ [cleanGridPt s g] := by
  simp only [cleanGrid, cleanGridPt]
  split <;> rfl

theorem foldl_cleanGrid_pt (s : Session) (l : List ℕ) (acc : CleanAcc) :
    (l.foldl (cleanGrid s) acc).pt = acc.pt ++ l.map (cleanGridPt s) := by
  induction l generalizing acc with
  | nil => simp
  | cons a t ih =>
      simp only [List.foldl_cons, List.map_cons, ih, cleanGrid_pt]
      simp

theorem getD_map_range {α : Type} (n g : ℕ) (f : ℕ → α) (d : α) (h : g < n) :
    ((List.range n).map f).getD g d = f g := by
  rw [List.getD_eq_getElem?_getD, List.getElem?_map, List.getElem?_range h]
  rfl

theorem remove_flagged_upto_Pulsetrain (k : ℕ) (s : Session) :
    (remove_flagged_upto k s).Pulsetrain =
      (List.range (min k s.Pulsetrain.length)).map (cleanGridPt s) := by
  simp only [remove_flagged_upto, foldl_cleanGrid_pt]
  rfl

theorem remove_flagged_Pulsetrain (s : Session) :
    (remove_flagged s).Pulsetrain =
      (List.range s.Pulsetrain.length).map (cleanGridPt s) := by
  rw [remove_flagged, remove_flagged_upto_Pulsetrain, Nat.min_self]

end CompactLemmas

section ClaimC10

/-- C10: compaction preserves the number of grids, and a grid all of whose
units pass the flagged-for-deletion test becomes a 0-row matrix that keeps the
original column count rather than being removed from the per-grid list.  -/
theorem C10_compaction_keeps_grids (s : Session) (g : ℕ) :
    (remove_flagged s).Pulsetrain.length = s.Pulsetrain.length ∧
    (g < s.Pulsetrain.length →
      (∀ u < ((s.Pulsetrain.getD g ⟨0, []⟩).rows).length,
        flaggedTest s.fsamp ((s.Pulsetrain.getD g ⟨0, []⟩).rows.getD u []) (s.dtAt (g, u)) = true) →
      (remove_flagged s).Pulsetrain.getD g ⟨0, []⟩ =
        ⟨(s.Pulsetrain.getD g ⟨0, []⟩).ncols, []⟩) := by
  constructor
  · rw [remove_flagged_Pulsetrain]
    simp
  · intro hg hall
    rw [remove_flagged_Pulsetrain, getD_map_range _ _ _ _ hg]
    simp only [cleanGridPt, keepList]
    have hkeep : (List.range ((s.Pulsetrain.getD g ⟨0, []⟩).rows).length).filter
        (fun u => ¬ flaggedTest s.fsamp ((s.Pulsetrain.getD g ⟨0, []⟩).rows.getD u [])
          (s.dtAt (g, u))) = [] := by
      apply List.filter_eq_nil_iff.mpr
      intro u hu
      simp only [List.mem_range] at hu
      have h2 := hall u hu
      simp only [List.getD_eq_getElem?_getD] at h2
      simp [h2]
    rw [hkeep]
    rfl


/-- Witness for `C10_compaction_keeps_grids` at `sessC10`. -/
theorem C10_compaction_keeps_grids_witness :
    (remove_flagged sessC10).Pulsetrain.getD 0 ⟨0, []⟩ = ⟨3, []⟩ := by
  have h := (C10_compaction_keeps_grids sessC10 0).2 (by decide) (by decide)
  simpa using h

end ClaimC10



section FlagLemmas

variable {α : Type}

theorem modifyAt_oob (l : List α) (i : ℕ) (f : α → α) (h : l.length ≤ i) :
    modifyAt l i f = l := by
  induction l generalizing i with
  | nil => rfl
  | cons a t ih =>
      cases i with
      | zero => simp at h
      | succ n =>
          simp only [modifyAt, List.cons.injEq, true_and]
          exact ih n (by simpa using h)

theorem getD_oob (l : List α) (n : ℕ) (d : α) (h : l.length ≤ n) :
    l.getD n d = d := by
  rw [List.getD_eq_getElem?_getD, List.getElem?_eq_none h]
  rfl

theorem flag_mu_fsamp (s : Session) (g u : ℕ) : (flag_mu s g u).fsamp = s.fsamp := rfl

theorem flag_mu_silval (s : Session) (g u : ℕ) : (flag_mu s g u).silval = s.silval := rfl

theorem flag_mu_silvalcon (s : Session) (g u : ℕ) :
    (flag_mu s g u).silvalcon = s.silvalcon := rfl

theorem flag_mu_Pulsetrain_length (s : Session) (g u : ℕ) :
    (flag_mu s g u).Pulsetrain.length = s.Pulsetrain.length :=
  modifyAt_length _ _ _

theorem flag_mu_grid_ncols (s : Session) (g u g2 : ℕ) :
    ((flag_mu s g u).Pulsetrain.getD g2 ⟨0, []⟩).ncols =
      ((s.Pulsetrain.getD g2 ⟨0, []⟩)).ncols := by
  simp only [flag_mu]
  by_cases hg : g2 = g
  · subst hg
    by_cases hl : g2 < s.Pulsetrain.length
    · rw [getD_modifyAt_self _ _ _ _ hl]
    · rw [modifyAt_oob _ _ _ (le_of_not_lt hl)]
  · rw [getD_modifyAt_ne _ _ _ _ _ hg]

theorem flag_mu_rows_length (s : Session) (g u g2 : ℕ) :
    ((flag_mu s g u).Pulsetrain.getD g2 ⟨0, []⟩).rows.length =
      ((s.Pulsetrain.getD g2 ⟨0, []⟩)).rows.length := by
  simp only [flag_mu]
  by_cases hg : g2 = g
  · subst hg
    by_cases hl : g2 < s.Pulsetrain.length
    · rw [getD_modifyAt_self _ _ _ _ hl]
      exact modifyAt_length _ _ _
    · rw [modifyAt_oob _ _ _ (le_of_not_lt hl)]
  · rw [getD_modifyAt_ne _ _ _ _ _ hg]

theorem flag_mu_row_self (s : Session) (g u : ℕ) :
    (flag_mu s g u).row g u = (s.row g u).map (fun _ => (0 : ℚ)) := by
  simp only [flag_mu, Session.row]
  by_cases hl : g < s.Pulsetrain.length
  · rw [getD_modifyAt_self _ _ _ _ hl]
    by_cases hu : u < ((s.Pulsetrain.getD g ⟨0, []⟩).rows).length
    · exact getD_modifyAt_self _ _ _ _ hu
    · rw [getD_oob _ _ _ (by rw [modifyAt_length]; exact le_of_not_lt hu),
        getD_oob _ _ _ (le_of_not_lt hu)]
      rfl
  · rw [modifyAt_oob _ _ _ (le_of_not_lt hl)]
    rw [getD_oob s.Pulsetrain g _ (le_of_not_lt hl)]
    rfl

theorem flag_mu_row_ne (s : Session) (g u g2 u2 : ℕ) (h : (g2, u2) ≠ (g, u)) :
    (flag_mu s g u).row g2 u2 = s.row g2 u2 := by
  simp only [flag_mu, Session.row]
  by_cases hg : g2 = g
  · subst hg
    have hu : u2 ≠ u := by
      intro hc
      exact h (by rw [hc])
    by_cases hl : g2 < s.Pulsetrain.length
    · rw [getD_modifyAt_self _ _ _ _ hl]
      exact getD_modifyAt_ne _ _ _ _ _ hu
    · rw [modifyAt_oob _ _ _ (le_of_not_lt hl)]
  · rw [getD_modifyAt_ne _ _ _ _ _ hg]

theorem flag_mu_dtAt_self (s : Session) (g u : ℕ) :
    (flag_mu s g u).dtAt (g, u) = some [1, s.fsamp] := by
  simp [flag_mu, Session.dtAt, dlookup_dinsert_self]

theorem flag_mu_dtAt_ne (s : Session) (g u : ℕ) (k : Key) (h : k ≠ (g, u)) :
    (flag_mu s g u).dtAt k = s.dtAt k := by
  simp only [flag_mu, Session.dtAt]
  exact dlookup_dinsert_ne _ _ _ _ h

theorem flag_set_fsamp (s : Session) (F : List Key) : (flag_set s F).fsamp = s.fsamp := by
  induction F generalizing s with
  | nil => rfl
  | cons a t ih => exact (ih (flag_mu s a.1 a.2)).trans rfl

theorem flag_set_silval (s : Session) (F : List Key) :
    (flag_set s F).silval = s.silval := by
  induction F generalizing s with
  | nil => rfl
  | cons a t ih => exact (ih (flag_mu s a.1 a.2)).trans rfl

theorem flag_set_silvalcon (s : Session) (F : List Key) :
    (flag_set s F).silvalcon = s.silvalcon := by
  induction F generalizing s with
  | nil => rfl
  | cons a t ih => exact (ih (flag_mu s a.1 a.2)).trans rfl

theorem flag_set_Pulsetrain_length (s : Session) (F : List Key) :
    (flag_set s F).Pulsetrain.length = s.Pulsetrain.length := by
  induction F generalizing s with
  | nil => rfl
  | cons a t ih =>
      exact (ih (flag_mu s a.1 a.2)).trans (flag_mu_Pulsetrain_length s a.1 a.2)

theorem flag_set_grid_ncols (s : Session) (F : List Key) (g2 : ℕ) :
    ((flag_set s F).Pulsetrain.getD g2 ⟨0, []⟩).ncols =
      ((s.Pulsetrain.getD g2 ⟨0, []⟩)).ncols := by
  induction F generalizing s with
  | nil => rfl
  | cons a t ih =>
      exact (ih (flag_mu s a.1 a.2)).trans (flag_mu_grid_ncols s a.1 a.2 g2)

theorem flag_set_rows_length (s : Session) (F : List Key) (g2 : ℕ) :
    ((flag_set s F).Pulsetrain.getD g2 ⟨0, []⟩).rows.length =
      ((s.Pulsetrain.getD g2 ⟨0, []⟩)).rows.length := by
  induction F generalizing s with
  | nil => rfl
  | cons a t ih =>
      exact (ih (flag_mu s a.1 a.2)).trans (flag_mu_rows_length s a.1 a.2 g2)

theorem flag_set_row (s : Session) (F : List Key) (g u : ℕ) :
    (flag_set s F).row g u =
      if (g, u) ∈ F then (s.row g u).map (fun _ => (0 : ℚ)) else s.row g u := by
  induction F generalizing s with
  | nil => simp [flag_set]
  | cons a t ih =>
      obtain ⟨a1, a2⟩ := a
      have hstep : flag_set s ((a1, a2) :: t) = flag_set (flag_mu s a1 a2) t := rfl
      rw [hstep, ih]
      by_cases h1 : (g, u) ∈ t
      · rw [if_pos h1, if_pos (List.mem_cons_of_mem _ h1)]
        by_cases h2 : (g, u) = (a1, a2)
        · obtain ⟨hg, hu⟩ := Prod.mk.injEq .. ▸ h2
          subst hg
          subst hu
          rw [flag_mu_row_self, List.map_map]
          rfl
        · rw [flag_mu_row_ne s a1 a2 g u h2]
      · rw [if_neg h1]
        by_cases h2 : (g, u) = (a1, a2)
        · have hg : g = a1 := congrArg Prod.fst h2
          have hu : u = a2 := congrArg Prod.snd h2
          subst hg
          subst hu
          rw [if_pos (List.mem_cons_self _ _), flag_mu_row_self]
        · rw [flag_mu_row_ne s a1 a2 g u h2, if_neg (by
            intro hc
            rcases List.mem_cons.mp hc with h | h
            · exact h2 h
            · exact h1 h)]

theorem flag_set_dtAt (s : Session) (F : List Key) (g u : ℕ) :
    (flag_set s F).dtAt (g, u) =
      if (g, u) ∈ F then some [1, s.fsamp] else s.dtAt (g, u) := by
  induction F generalizing s with
  | nil => simp [flag_set]
  | cons a t ih =>
      obtain ⟨a1, a2⟩ := a
      have hstep : flag_set s ((a1, a2) :: t) = flag_set (flag_mu s a1 a2) t := rfl
      rw [hstep, ih]
      by_cases h1 : (g, u) ∈ t
      · rw [if_pos h1, if_pos (List.mem_cons_of_mem _ h1), flag_mu_fsamp]
      · rw [if_neg h1]
        by_cases h2 : (g, u) = (a1, a2)
        · have hg : g = a1 := congrArg Prod.fst h2
          have hu : u = a2 := congrArg Prod.snd h2
          subst hg
          subst hu
          rw [if_pos (List.mem_cons_self _ _), flag_mu_dtAt_self]
        · rw [flag_mu_dtAt_ne s a1 a2 (g, u) h2, if_neg (by
            intro hc
            rcases List.mem_cons.mp hc with h | h
            · exact h2 h
            · exact h1 h)]

end FlagLemmas

section CompactCharacterization

variable {α : Type}

/-- On a state obtained by flagging the units of `F`, the sentinel test of the
compaction pass recognises exactly the units of `F`, provided no other unit's
data already matched the sentinel. -/
theorem flaggedTest_flag_set (s : Session) (F : List Key) (g u : ℕ)
    (hother : (g, u) ∉ F →
      flaggedTest s.fsamp (s.row g u) (s.dtAt (g, u)) = false) :
    flaggedTest (flag_set s F).fsamp ((flag_set s F).row g u) ((flag_set s F).dtAt (g, u)) =
      decide ((g, u) ∈ F) := by
  rw [flag_set_fsamp, flag_set_row, flag_set_dtAt]
  by_cases h : (g, u) ∈ F
  · rw [if_pos h, if_pos h, decide_eq_true h]
    simp [flaggedTest, List.all_map]
  · rw [if_neg h, if_neg h, hother h, decide_eq_false h]

/-- The keep list of the compaction pass on the flagged state is the list of
unit indices not in `F`, in their original order. -/
theorem keepList_flag_set (s : Session) (F : List Key) (g : ℕ)
    (hother : ∀ u, u < ((s.Pulsetrain.getD g ⟨0, []⟩).rows.length) → (g, u) ∉ F →
      flaggedTest s.fsamp (s.row g u) (s.dtAt (g, u)) = false) :
    keepList (flag_set s F) g = keepNotF s F g := by
  simp only [keepList, keepNotF, flag_set_rows_length]
  apply List.filter_congr
  intro u hu
  rw [List.mem_range] at hu
  have hrow : ((flag_set s F).Pulsetrain.getD g ⟨0, []⟩).rows.getD u [] =
      (flag_set s F).row g u := rfl
  rw [hrow, flaggedTest_flag_set s F g u (hother u hu)]
  by_cases h : (g, u) ∈ F
  · simp [h]
  · simp [h]

theorem copyKept_lookup_ne (src : List (Key × α)) (g : ℕ) (keep : List ℕ) (j0 : ℕ)
    (dst : List (Key × α)) (k : Key) (h : k.1 ≠ g) :
    dlookup (copyKept src g keep j0 dst) k = dlookup dst k := by
  induction keep generalizing j0 dst with
  | nil => rfl
  | cons old rest ih =>
      simp only [copyKept]
      cases hsrc : dlookup src (g, old) with
      | none => simp only [ih]
      | some v =>
          rw [ih]
          exact dlookup_dinsert_ne _ _ _ _ (by
            intro hc
            exact h (congrArg Prod.fst hc))

theorem copyKept_lookup_lt (src : List (Key × α)) (g : ℕ) (keep : List ℕ) (j0 j : ℕ)
    (dst : List (Key × α)) (h : j < j0) :
    dlookup (copyKept src g keep j0 dst) (g, j) = dlookup dst (g, j) := by
  induction keep generalizing j0 dst with
  | nil => rfl
  | cons old rest ih =>
      simp only [copyKept]
      cases hsrc : dlookup src (g, old) with
      | none => rw [ih _ _ (Nat.lt_succ_of_lt h)]
      | some v =>
          rw [ih _ _ (Nat.lt_succ_of_lt h)]
          exact dlookup_dinsert_ne _ _ _ _ (by
            intro hc
            have : j = j0 := congrArg Prod.snd hc
            omega)

theorem copyKept_lookup_at (src : List (Key × α)) (g : ℕ) (keep : List ℕ) (j0 i : ℕ)
    (dst : List (Key × α)) (hi : i < keep.length)
    (hdst : ∀ j, j0 ≤ j → dlookup dst (g, j) = none) :
    dlookup (copyKept src g keep j0 dst) (g, j0 + i) = dlookup src (g, keep.getD i 0) := by
  induction keep generalizing j0 i dst with
  | nil => simp at hi
  | cons old rest ih =>
      simp only [copyKept]
      cases i with
      | zero =>
          simp only [Nat.add_zero]
          rw [copyKept_lookup_lt _ _ _ _ _ _ (by omega : j0 < j0 + 1)]
          cases hsrc : dlookup src (g, old) with
          | none =>
              simp only [hsrc]
              rw [hdst j0 le_rfl, List.getD_cons_zero, hsrc]
          | some v =>
              simp only [hsrc]
              rw [dlookup_dinsert_self, List.getD_cons_zero, hsrc]
      | succ i2 =>
          have harith : j0 + (i2 + 1) = (j0 + 1) + i2 := by omega
          rw [harith]
          cases hsrc : dlookup src (g, old) with
          | none =>
              simp only [hsrc]
              rw [ih (j0 + 1) i2 dst (by simpa using hi) (fun j hj => hdst j (by omega))]
              rfl
          | some v =>
              simp only [hsrc]
              rw [ih (j0 + 1) i2 (dinsert dst (g, j0) v) (by simpa using hi) (fun j hj => by
                rw [dlookup_dinsert_ne _ _ _ _ (by
                  intro hc
                  have hjj : j = j0 := congrArg Prod.snd hc
                  omega)]
                exact hdst j (by omega))]
              rfl

/-- The dictionary-building step of the compaction grid loop, one dict at a
time. -/
def cleanStep (src : List (Key × α)) (keepf : ℕ → List ℕ)
    (d : List (Key × α)) (g : ℕ) : List (Key × α) :=
  if (keepf g).isEmpty then d else copyKept src g (keepf g) 0 d

theorem cleanStep_fold_none (src : List (Key × α)) (keepf : ℕ → List ℕ)
    (m g j : ℕ) (hg : m ≤ g) :
    dlookup ((List.range m).foldl (cleanStep src keepf) []) (g, j) = none := by
  induction m with
  | zero => rfl
  | succ m2 ih =>
      rw [List.range_succ, List.foldl_append, List.foldl_cons, List.foldl_nil]
      simp only [cleanStep]
      split
      · exact ih (by omega)
      · rw [copyKept_lookup_ne _ _ _ _ _ _ (by
          intro hc
          simp at hc
          omega)]
        exact ih (by omega)

theorem cleanStep_fold_at (src : List (Key × α)) (keepf : ℕ → List ℕ)
    (m g j : ℕ) (hg : g < m) (hj : j < (keepf g).length) :
    dlookup ((List.range m).foldl (cleanStep src keepf) []) (g, j) =
      dlookup src (g, (keepf g).getD j 0) := by
  induction m with
  | zero => omega
  | succ m2 ih =>
      rw [List.range_succ, List.foldl_append, List.foldl_cons, List.foldl_nil]
      by_cases hgm : g = m2
      · subst hgm
        simp only [cleanStep]
        have hne : (keepf g).isEmpty = false := by
          cases hkl : keepf g with
          | nil => rw [hkl] at hj; simp at hj
          | cons a t => rfl
        rw [if_neg (by simp [hne])]
        have := copyKept_lookup_at src g (keepf g) 0 j
          ((List.range g).foldl (cleanStep src keepf) []) hj
          (fun j2 _ => cleanStep_fold_none src keepf g g j2 le_rfl)
        rw [Nat.zero_add] at this
        exact this
      · simp only [cleanStep]
        have hglt : g < m2 := by omega
        split
        · exact ih hglt
        · rw [copyKept_lookup_ne _ _ _ _ _ _ (by
            intro hc
            simp at hc
            omega)]
          exact ih hglt

theorem cleanGrid_dt (s : Session) (acc : CleanAcc) (g : ℕ) :
    (cleanGrid s acc g).dt = cleanStep s.Dischargetimes (keepList s) acc.dt g := by
  simp only [cleanGrid, cleanStep]
  split <;> rfl

theorem cleanGrid_sil (s : Session) (acc : CleanAcc) (g : ℕ) :
    (cleanGrid s acc g).sil = cleanStep s.silval (keepList s) acc.sil g := by
  simp only [cleanGrid, cleanStep]
  split <;> rfl

theorem cleanGrid_silcon (s : Session) (acc : CleanAcc) (g : ℕ) :
    (cleanGrid s acc g).silcon = cleanStep s.silvalcon (keepList s) acc.silcon g := by
  simp only [cleanGrid, cleanStep]
  split <;> rfl

theorem foldl_cleanGrid_dt (s : Session) (l : List ℕ) (acc : CleanAcc) :
    (l.foldl (cleanGrid s) acc).dt =
      l.foldl (cleanStep s.Dischargetimes (keepList s)) acc.dt := by
  induction l generalizing acc with
  | nil => rfl
  | cons a t ih =>
      simp only [List.foldl_cons, ih, cleanGrid_dt]

theorem foldl_cleanGrid_sil (s : Session) (l : List ℕ) (acc : CleanAcc) :
    (l.foldl (cleanGrid s) acc).sil =
      l.foldl (cleanStep s.silval (keepList s)) acc.sil := by
  induction l generalizing acc with
  | nil => rfl
  | cons a t ih =>
      simp only [List.foldl_cons, ih, cleanGrid_sil]

theorem foldl_cleanGrid_silcon (s : Session) (l : List ℕ) (acc : CleanAcc) :
    (l.foldl (cleanGrid s) acc).silcon =
      l.foldl (cleanStep s.silvalcon (keepList s)) acc.silcon := by
  induction l generalizing acc with
  | nil => rfl
  | cons a t ih =>
      simp only [List.foldl_cons, ih, cleanGrid_silcon]

theorem remove_flagged_dtAt (s : Session) (g j : ℕ)
    (hg : g < s.Pulsetrain.length) (hj : j < (keepList s g).length) :
    (remove_flagged s).dtAt (g, j) = s.dtAt (g, (keepList s g).getD j 0) := by
  show dlookup _ _ = _
  simp only [remove_flagged, remove_flagged_upto, Nat.min_self, foldl_cleanGrid_dt]
  exact cleanStep_fold_at s.Dischargetimes (keepList s) _ g j hg hj

theorem remove_flagged_silAt (s : Session) (g j : ℕ)
    (hg : g < s.Pulsetrain.length) (hj : j < (keepList s g).length) :
    (remove_flagged s).silAt (g, j) = s.silAt (g, (keepList s g).getD j 0) := by
  show dlookup _ _ = _
  simp only [remove_flagged, remove_flagged_upto, Nat.min_self, foldl_cleanGrid_sil]
  exact cleanStep_fold_at s.silval (keepList s) _ g j hg hj

theorem remove_flagged_silconAt (s : Session) (g j : ℕ)
    (hg : g < s.Pulsetrain.length) (hj : j < (keepList s g).length) :
    (remove_flagged s).silconAt (g, j) = s.silconAt (g, (keepList s g).getD j 0) := by
  show dlookup _ _ = _
  simp only [remove_flagged, remove_flagged_upto, Nat.min_self, foldl_cleanGrid_silcon]
  exact cleanStep_fold_at s.silvalcon (keepList s) _ g j hg hj

theorem cleanGridPt_ncols (s : Session) (g : ℕ) :
    (cleanGridPt s g).ncols = (s.Pulsetrain.getD g ⟨0, []⟩).ncols := by
  simp only [cleanGridPt]
  split <;> rfl

theorem cleanGridPt_rows (s : Session) (g : ℕ) :
    (cleanGridPt s g).rows = (keepList s g).map (fun u => s.row g u) := by
  simp only [cleanGridPt]
  split
  · rename_i hemp
    rw [List.isEmpty_iff.mp hemp]
    rfl
  · rfl

theorem getD_mem {α : Type} (l : List α) (j : ℕ) (d : α) (h : j < l.length) :
    l.getD j d ∈ l := by
  rw [List.getD_eq_getElem?_getD, List.getElem?_eq_getElem h]
  exact List.getElem_mem h

end CompactCharacterization

section ClaimC1

/-- C1 counterexample: compaction detects flagged units by pattern-matching
their data against the deletion sentinel, so with an empty flag set it still
removes unit `(0, 1)` of `sessC1`, whose data happens to equal the sentinel
(all-zero pulse train, discharge times `[1, fsamp]`): the claim that exactly
the flagged units are removed fails. -/
theorem C1_sentinel_collision :
    ((remove_flagged (flag_set sessC1 [])).Pulsetrain.getD 0 ⟨0, []⟩).rows.length = 1 ∧
    ((sessC1.Pulsetrain.getD 0 ⟨0, []⟩)).rows.length = 2 ∧
    (1 : ℕ) ≠ 2 := by
  refine ⟨?_, rfl, by decide⟩
  rfl

/-- C1 (amended): provided no unit other than the flagged ones already matches
the deletion sentinel, flagging the units of `F` and then compacting removes
exactly the flagged units: the grid count and each grid's column count are
preserved, each surviving grid holds exactly the unflagged units' pulse-train
rows in their original relative order and content, and the discharge-time,
SIL and continuous-SIL records of the survivors are re-keyed to their new
dense indices. -/
theorem C1_flag_then_compact (s : Session) (F : List Key)
    (hother : ∀ g, g < s.Pulsetrain.length →
      ∀ u, u < ((s.Pulsetrain.getD g ⟨0, []⟩).rows.length) → (g, u) ∉ F →
        flaggedTest s.fsamp (s.row g u) (s.dtAt (g, u)) = false) :
    (remove_flagged (flag_set s F)).Pulsetrain.length = s.Pulsetrain.length ∧
    ∀ g, g < s.Pulsetrain.length →
      ((remove_flagged (flag_set s F)).Pulsetrain.getD g ⟨0, []⟩).ncols =
        (s.Pulsetrain.getD g ⟨0, []⟩).ncols ∧
      ((remove_flagged (flag_set s F)).Pulsetrain.getD g ⟨0, []⟩).rows =
        (keepNotF s F g).map (fun u => s.row g u) ∧
      ∀ j, j < (keepNotF s F g).length →
        (remove_flagged (flag_set s F)).dtAt (g, j) =
          s.dtAt (g, (keepNotF s F g).getD j 0) ∧
        (remove_flagged (flag_set s F)).silAt (g, j) =
          s.silAt (g, (keepNotF s F g).getD j 0) ∧
        (remove_flagged (flag_set s F)).silconAt (g, j) =
          s.silconAt (g, (keepNotF s F g).getD j 0) := by
  have hlen2 : (flag_set s F).Pulsetrain.length = s.Pulsetrain.length :=
    flag_set_Pulsetrain_length s F
  constructor
  · rw [remove_flagged_Pulsetrain]
    simp [hlen2]
  · intro g hg
    have hg2 : g < (flag_set s F).Pulsetrain.length := by omega
    have hkeep : keepList (flag_set s F) g = keepNotF s F g := by
      apply keepList_flag_set
      intro u hu
      exact hother g hg u hu
    have hmem : ∀ j, j < (keepNotF s F g).length → (g, (keepNotF s F g).getD j 0) ∉ F := by
      intro j hj
      have hm : (keepNotF s F g).getD j 0 ∈ keepNotF s F g := getD_mem _ _ _ hj
      simp only [keepNotF] at hm
      exact of_decide_eq_true (List.mem_filter.mp hm).2
    refine ⟨?_, ?_, ?_⟩
    · rw [remove_flagged_Pulsetrain, getD_map_range _ _ _ _ (by omega), cleanGridPt_ncols,
        flag_set_grid_ncols]
    · rw [remove_flagged_Pulsetrain, getD_map_range _ _ _ _ (by omega), cleanGridPt_rows,
        hkeep]
      apply List.map_congr_left
      intro u hu
      simp only [keepNotF] at hu
      have hnf : (g, u) ∉ F := of_decide_eq_true (List.mem_filter.mp hu).2
      rw [flag_set_row, if_neg hnf]
    · intro j hj
      have hj2 : j < (keepList (flag_set s F) g).length := by rw [hkeep]; exact hj
      refine ⟨?_, ?_, ?_⟩
      · rw [remove_flagged_dtAt _ _ _ hg2 hj2, hkeep, flag_set_dtAt,
          if_neg (hmem j hj)]
      · rw [remove_flagged_silAt _ _ _ hg2 hj2, hkeep]
        show dlookup (flag_set s F).silval _ = _
        rw [flag_set_silval]
        rfl
      · rw [remove_flagged_silconAt _ _ _ hg2 hj2, hkeep]
        show dlookup (flag_set s F).silvalcon _ = _
        rw [flag_set_silvalcon]
        rfl

/-- Witness for `C1_flag_then_compact`: flag unit `(0, 1)` of `sessC1` and
compact; the surviving grid holds exactly unit `(0, 0)`'s row. -/
theorem C1_flag_then_compact_witness :
    ((remove_flagged (flag_set sessC1 [(0, 1)])).Pulsetrain.getD 0 ⟨0, []⟩).rows =
      (keepNotF sessC1 [(0, 1)] 0).map (fun u => sessC1.row 0 u) :=
  ((C1_flag_then_compact sessC1 [(0, 1)] (by decide)).2 0 (by decide)).2.1

end ClaimC1

section BatchLemmas

theorem setRow_row_ne (s : Session) (g u : ℕ) (r : Row) (g2 u2 : ℕ)
    (h : (g2, u2) ≠ (g, u)) :
    (s.setRow g u r).row g2 u2 = s.row g2 u2 := by
  simp only [Session.setRow, Session.row]
  by_cases hg : g2 = g
  · subst hg
    have hu : u2 ≠ u := by
      intro hc
      exact h (by rw [hc])
    by_cases hl : g2 < s.Pulsetrain.length
    · rw [getD_modifyAt_self _ _ _ _ hl]
      exact getD_modifyAt_ne _ _ _ _ _ hu
    · rw [modifyAt_oob _ _ _ (le_of_not_lt hl)]
  · rw [getD_modifyAt_ne _ _ _ _ _ hg]

theorem map_modifyAt {α β : Type} (l : List α) (i : ℕ) (f : α → α) (m : α → β)
    (h : ∀ a, m (f a) = m a) : (modifyAt l i f).map m = l.map m := by
  induction l generalizing i with
  | nil => rfl
  | cons a t ih =>
      cases i with
      | zero => simp [modifyAt, h]
      | succ n => simp [modifyAt, ih]

theorem outlier_step_Pulsetrain (ro : Row → List ℕ → List ℕ)
    (G : Row → ℕ → ℚ) (R : Row → List ℕ → ℕ → List (ℚ × ℚ)) (s : Session) (k : Key) :
    (outlier_step ro G R s k).Pulsetrain = s.Pulsetrain := by
  simp only [outlier_step]
  split
  · rw [calculate_silval_Pulsetrain]
  · rfl

theorem outlier_step_view_ne (ro : Row → List ℕ → List ℕ)
    (G : Row → ℕ → ℚ) (R : Row → List ℕ → ℕ → List (ℚ × ℚ)) (s : Session) (k k2 : Key)
    (h : k2 ≠ k) :
    unitView (outlier_step ro G R s k) k2 = unitView s k2 := by
  have hk : k = (k.1, k.2) := rfl
  simp only [unitView, Prod.mk.injEq]
  refine ⟨?_, ?_, ?_, ?_⟩
  · simp only [Session.row]
    rw [outlier_step_Pulsetrain]
  · simp only [outlier_step]
    split
    · rw [calculate_silval_dtAt_ne _ _ _ _ _ _ (hk ▸ h)]
      show dlookup (dinsert _ _ _) _ = _
      exact dlookup_dinsert_ne _ _ _ _ (hk ▸ h)
    · rfl
  · simp only [outlier_step]
    split
    · rw [calculate_silval_silAt_ne _ _ _ _ _ _ (hk ▸ h)]
      rfl
    · rfl
  · simp only [outlier_step]
    split
    · rw [calculate_silval_silconAt_ne _ _ _ _ _ _ (hk ▸ h)]
      rfl
    · rfl

theorem filter_step_gridShape (uf : ℕ → List ℕ → Row × List ℕ)
    (G : Row → ℕ → ℚ) (R : Row → List ℕ → ℕ → List (ℚ × ℚ)) (s : Session) (k : Key) :
    gridShape (filter_step uf G R s k).Pulsetrain = gridShape s.Pulsetrain := by
  simp only [filter_step]
  split
  · rw [calculate_silval_Pulsetrain]
    show gridShape (modifyAt _ _ _) = _
    exact map_modifyAt _ _ _ _ (by
      intro a
      show (a.ncols, (modifyAt a.rows _ _).length) = (a.ncols, a.rows.length)
      rw [modifyAt_length])
  · rfl

theorem filter_step_view_ne (uf : ℕ → List ℕ → Row × List ℕ)
    (G : Row → ℕ → ℚ) (R : Row → List ℕ → ℕ → List (ℚ × ℚ)) (s : Session) (k k2 : Key)
    (h : k2 ≠ k) :
    unitView (filter_step uf G R s k) k2 = unitView s k2 := by
  have hk : k = (k.1, k.2) := rfl
  have hk2 : k2 = (k2.1, k2.2) := rfl
  simp only [unitView, Prod.mk.injEq]
  refine ⟨?_, ?_, ?_, ?_⟩
  · simp only [filter_step]
    split
    · rw [calculate_silval_row]
      show (Session.setRow _ _ _ _).row k2.1 k2.2 = _
      exact setRow_row_ne _ _ _ _ _ _ (by
        intro hc
        exact h (hk2.trans (hc.trans hk.symm)))
    · rfl
  · simp only [filter_step]
    split
    · rw [calculate_silval_dtAt_ne _ _ _ _ _ _ (hk ▸ h)]
      show dlookup (dinsert _ _ _) _ = _
      exact dlookup_dinsert_ne _ _ _ _ (hk ▸ h)
    · rfl
  · simp only [filter_step]
    split
    · rw [calculate_silval_silAt_ne _ _ _ _ _ _ (hk ▸ h)]
      rfl
    · rfl
  · simp only [filter_step]
    split
    · rw [calculate_silval_silconAt_ne _ _ _ _ _ _ (hk ▸ h)]
      rfl
    · rfl

theorem foldl_outlier_Pulsetrain (ro : Row → List ℕ → List ℕ)
    (G : Row → ℕ → ℚ) (R : Row → List ℕ → ℕ → List (ℚ × ℚ)) (ks : List Key) (s : Session) :
    (ks.foldl (outlier_step ro G R) s).Pulsetrain = s.Pulsetrain := by
  induction ks generalizing s with
  | nil => rfl
  | cons a t ih => exact (ih _).trans (outlier_step_Pulsetrain ro G R s a)

theorem foldl_outlier_view_not_mem (ro : Row → List ℕ → List ℕ)
    (G : Row → ℕ → ℚ) (R : Row → List ℕ → ℕ → List (ℚ × ℚ)) (ks : List Key) (s : Session)
    (k : Key) (h : k ∉ ks) :
    unitView (ks.foldl (outlier_step ro G R) s) k = unitView s k := by
  induction ks generalizing s with
  | nil => rfl
  | cons a t ih =>
      have hka : k ≠ a := fun hc => h (hc ▸ List.mem_cons_self a t)
      have hkt : k ∉ t := fun hc => h (List.mem_cons_of_mem a hc)
      exact (ih _ hkt).trans (outlier_step_view_ne ro G R s a k hka)

theorem foldl_filter_gridShape (uf : ℕ → List ℕ → Row × List ℕ)
    (G : Row → ℕ → ℚ) (R : Row → List ℕ → ℕ → List (ℚ × ℚ)) (ks : List Key) (s : Session) :
    gridShape (ks.foldl (filter_step uf G R) s).Pulsetrain = gridShape s.Pulsetrain := by
  induction ks generalizing s with
  | nil => rfl
  | cons a t ih => exact (ih _).trans (filter_step_gridShape uf G R s a)

theorem foldl_filter_view_not_mem (uf : ℕ → List ℕ → Row × List ℕ)
    (G : Row → ℕ → ℚ) (R : Row → List ℕ → ℕ → List (ℚ × ℚ)) (ks : List Key) (s : Session)
    (k : Key) (h : k ∉ ks) :
    unitView (ks.foldl (filter_step uf G R) s) k = unitView s k := by
  induction ks generalizing s with
  | nil => rfl
  | cons a t ih =>
      have hka : k ≠ a := fun hc => h (hc ▸ List.mem_cons_self a t)
      have hkt : k ∉ t := fun hc => h (List.mem_cons_of_mem a hc)
      exact (ih _ hkt).trans (filter_step_view_ne uf G R s a k hka)

theorem unitsOf_nodup (grids : List Grid) : (unitsOf grids).Nodup := by
  rw [unitsOf, List.nodup_flatMap]
  constructor
  · intro g _
    exact (List.nodup_range _).map (fun u1 u2 hc => by
      exact congrArg Prod.snd hc)
  · have hp : (List.range grids.length).Pairwise (fun a b => a ≠ b) :=
      List.nodup_range _
    refine hp.imp ?_
    intro a b hab
    show List.Disjoint _ _
    rw [List.disjoint_left]
    intro x hxa hxb
    simp only [List.mem_map, List.mem_range] at hxa hxb
    obtain ⟨u1, _, hx1⟩ := hxa
    obtain ⟨u2, _, hx2⟩ := hxb
    exact hab (by
      have heq := hx1.trans hx2.symm
      exact congrArg Prod.fst heq)

theorem remove_flagged_upto_length (k : ℕ) (s : Session) :
    (remove_flagged_upto k s).Pulsetrain.length = min k s.Pulsetrain.length := by
  rw [remove_flagged_upto_Pulsetrain]
  simp

end BatchLemmas

section ClaimC5

/-- C5 counterexample: cancelling `remove_flagged_mu_button_pushed` after the
first of two grids replaces the whole collection with the partial clean
version; the second grid — none of whose units were flagged or processed —
disappears, together with its discharge-time records.  This contradicts the
claim that cancellation leaves every not-yet-processed unit's data present. -/
theorem C5_flagged_cancel_drops_grids :
    (remove_flagged_upto 1 sessC5).Pulsetrain.length = 1 ∧
    sessC5.Pulsetrain.length = 2 ∧
    (remove_flagged_upto 1 sessC5).dtAt (1, 0) = none ∧
    sessC5.dtAt (1, 0) = some [3, 4] := by
  refine ⟨?_, rfl, ?_, rfl⟩ <;> rfl

/-- C5 (amended): for the in-place batch operations (remove-all-outliers,
update-all-filters), cancellation after `k` processed units keeps every
processed unit's updated state (it agrees with the uncancelled run) and
leaves every not-yet-processed unit's pulse train, discharge times and SIL
records untouched, with the grid structure preserved.  For the remove-flagged
compaction, cancellation after `k` grids instead truncates the collection to
the `k` processed grids, dropping the not-yet-processed ones. -/
theorem C5_batch_cancellation (ro : Row → List ℕ → List ℕ)
    (uf : ℕ → List ℕ → Row × List ℕ)
    (G : Row → ℕ → ℚ) (R : Row → List ℕ → ℕ → List (ℚ × ℚ))
    (s : Session) (k : ℕ) :
    ((remove_all_outliers_upto ro G R k s).Pulsetrain = s.Pulsetrain ∧
      (∀ key ∈ (unitsOf s.Pulsetrain).drop k,
        unitView (remove_all_outliers_upto ro G R k s) key = unitView s key) ∧
      (∀ key ∈ (unitsOf s.Pulsetrain).take k,
        unitView (remove_all_outliers_upto ro G R k s) key =
          unitView (remove_all_outliers ro G R s) key)) ∧
    (gridShape (update_all_filters_upto uf G R k s).Pulsetrain = gridShape s.Pulsetrain ∧
      (∀ key ∈ (unitsOf s.Pulsetrain).drop k,
        unitView (update_all_filters_upto uf G R k s) key = unitView s key) ∧
      (∀ key ∈ (unitsOf s.Pulsetrain).take k,
        unitView (update_all_filters_upto uf G R k s) key =
          unitView (update_all_filters uf G R s) key)) ∧
    (remove_flagged_upto k s).Pulsetrain.length = min k s.Pulsetrain.length := by
  have hnd : (unitsOf s.Pulsetrain).Nodup := unitsOf_nodup s.Pulsetrain
  have hdisj : List.Disjoint ((unitsOf s.Pulsetrain).take k) ((unitsOf s.Pulsetrain).drop k) :=
    List.disjoint_take_drop hnd le_rfl
  refine ⟨⟨?_, ?_, ?_⟩, ⟨?_, ?_, ?_⟩, remove_flagged_upto_length k s⟩
  · exact foldl_outlier_Pulsetrain ro G R _ s
  · intro key hkey
    exact foldl_outlier_view_not_mem ro G R _ s key
      (fun hc => hdisj hc hkey)
  · intro key hkey
    show _ = unitView ((unitsOf s.Pulsetrain).foldl (outlier_step ro G R) s) key
    rw [← List.take_append_drop k (unitsOf s.Pulsetrain), List.foldl_append]
    exact (foldl_outlier_view_not_mem ro G R _ _ key
      (fun hc => hdisj hkey hc)).symm
  · exact foldl_filter_gridShape uf G R _ s
  · intro key hkey
    exact foldl_filter_view_not_mem uf G R _ s key
      (fun hc => hdisj hc hkey)
  · intro key hkey
    show _ = unitView ((unitsOf s.Pulsetrain).foldl (filter_step uf G R) s) key
    rw [← List.take_append_drop k (unitsOf s.Pulsetrain), List.foldl_append]
    exact (foldl_filter_view_not_mem uf G R _ _ key
      (fun hc => hdisj hkey hc)).symm

/-- Witness for `C5_batch_cancellation` on `sessC5` with cancellation after
one unit: the not-yet-processed unit `(1, 0)` is untouched. -/
theorem C5_batch_cancellation_witness :
    unitView (remove_all_outliers_upto (fun _ d => d) (fun _ _ => 0) (fun _ _ _ => [])
      1 sessC5) (1, 0) = unitView sessC5 (1, 0) :=
  ((C5_batch_cancellation (fun _ d => d) (fun g d => ([], d)) (fun _ _ => 0)
    (fun _ _ _ => []) sessC5 1).1.2.1 (1, 0) (by decide))

end ClaimC5

section DedupLemmas

theorem foldl_calc_Pulsetrain (G : Row → ℕ → ℚ) (R : Row → List ℕ → ℕ → List (ℚ × ℚ))
    (keys : List Key) (s : Session) :
    ((keys.foldl (fun t k2 => calculate_silval G R t k2.1 k2.2) s)).Pulsetrain =
      s.Pulsetrain := by
  induction keys generalizing s with
  | nil => rfl
  | cons a rest ih =>
      exact (ih _).trans (calculate_silval_Pulsetrain G R s a.1 a.2)

theorem foldl_calc_fsamp (G : Row → ℕ → ℚ) (R : Row → List ℕ → ℕ → List (ℚ × ℚ))
    (keys : List Key) (s : Session) :
    ((keys.foldl (fun t k2 => calculate_silval G R t k2.1 k2.2) s)).fsamp = s.fsamp := by
  induction keys generalizing s with
  | nil => rfl
  | cons a rest ih =>
      exact (ih _).trans (calculate_silval_fsamp G R s a.1 a.2)

theorem foldl_calc_silAt_not_mem (G : Row → ℕ → ℚ) (R : Row → List ℕ → ℕ → List (ℚ × ℚ))
    (keys : List Key) (s : Session) (k : Key) (h : k ∉ keys) :
    ((keys.foldl (fun t k2 => calculate_silval G R t k2.1 k2.2) s)).silAt k = s.silAt k := by
  induction keys generalizing s with
  | nil => rfl
  | cons a rest ih =>
      have hka : k ≠ a := fun hc => h (hc ▸ List.mem_cons_self a rest)
      have hkr : k ∉ rest := fun hc => h (List.mem_cons_of_mem a hc)
      exact (ih _ hkr).trans (calculate_silval_silAt_ne G R s a.1 a.2 k hka)

theorem foldl_calc_dtAt_not_mem (G : Row → ℕ → ℚ) (R : Row → List ℕ → ℕ → List (ℚ × ℚ))
    (keys : List Key) (s : Session) (k : Key) (h : k ∉ keys) :
    ((keys.foldl (fun t k2 => calculate_silval G R t k2.1 k2.2) s)).dtAt k = s.dtAt k := by
  induction keys generalizing s with
  | nil => rfl
  | cons a rest ih =>
      have hka : k ≠ a := fun hc => h (hc ▸ List.mem_cons_self a rest)
      have hkr : k ∉ rest := fun hc => h (List.mem_cons_of_mem a hc)
      exact (ih _ hkr).trans (calculate_silval_dtAt_ne G R s a.1 a.2 k hka)

theorem foldl_calc_silAt_mem (G : Row → ℕ → ℚ) (R : Row → List ℕ → ℕ → List (ℚ × ℚ))
    (keys : List Key) (s : Session) (k : Key) (hnd : keys.Nodup) (hm : k ∈ keys) :
    ((keys.foldl (fun t k2 => calculate_silval G R t k2.1 k2.2) s)).silAt k =
      some (silOf G (s.row k.1 k.2) ((s.dtAt k).getD []) s.fsamp) := by
  induction keys generalizing s with
  | nil => simp at hm
  | cons a rest ih =>
      obtain ⟨a1, a2⟩ := a
      have hna : (a1, a2) ∉ rest := (List.nodup_cons.mp hnd).1
      have hndr : rest.Nodup := (List.nodup_cons.mp hnd).2
      simp only [List.foldl_cons]
      by_cases hk : k = (a1, a2)
      · subst hk
        rw [foldl_calc_silAt_not_mem G R rest _ _ hna, calculate_silval_silAt_self]
      · have hmr : k ∈ rest := by
          rcases List.mem_cons.mp hm with h | h
          · exact absurd h hk
          · exact h
        rw [ih _ hndr hmr, calculate_silval_row,
          calculate_silval_dtAt_ne G R s a1 a2 k hk, calculate_silval_fsamp]

/-- Distinctness of grid-major `(grid, unit)` enumerations with arbitrary
per-grid counts. -/
theorem pairKeys_nodup (n : ℕ) (m : ℕ → ℕ) :
    ((List.range n).flatMap (fun g => (List.range (m g)).map (fun u => (g, u)))).Nodup := by
  rw [List.nodup_flatMap]
  constructor
  · intro g _
    exact (List.nodup_range _).map (fun u1 u2 hc => by
      exact congrArg Prod.snd hc)
  · have hp : (List.range n).Pairwise (fun a b => a ≠ b) := List.nodup_range _
    refine hp.imp ?_
    intro a b hab
    show List.Disjoint _ _
    rw [List.disjoint_left]
    intro x hxa hxb
    simp only [List.mem_map, List.mem_range] at hxa hxb
    obtain ⟨u1, _, hx1⟩ := hxa
    obtain ⟨u2, _, hx2⟩ := hxb
    exact hab (by
      have heq := hx1.trans hx2.symm
      exact congrArg Prod.fst heq)

theorem betweenCalcKeys_nodup (oldLen : ℕ) (muscle : List ℕ) :
    (betweenCalcKeys oldLen muscle).Nodup :=
  pairKeys_nodup oldLen (fun g => (betweenPos muscle g).length)

/-- The between-grid duplicate removal leaves, at every key the rebuild loop
visited, the SIL computed by `calculate_silval` from the PRE-removal
collections — the new collections are installed only afterwards and
`new_silval` is never installed. -/
theorem remove_duplicates_between_silAt
    (rdB : List Row → List (List ℕ) → List ℕ → List (List ℕ) × List Row × List ℕ)
    (G : Row → ℕ → ℚ) (R : Row → List ℕ → ℕ → List (ℚ × ℚ)) (T : ℕ) (s : Session) (k : Key)
    (hm : k ∈ betweenCalcKeys s.Pulsetrain.length (betweenRes rdB s).2.2) :
    (remove_duplicates_between rdB G R T s).silAt k =
      some (silOf G (s.row k.1 k.2) ((s.dtAt k).getD []) s.fsamp) := by
  have h1 : (remove_duplicates_between rdB G R T s).silval =
      ((betweenCalcKeys s.Pulsetrain.length (betweenRes rdB s).2.2).foldl
        (fun t k2 => calculate_silval G R t k2.1 k2.2) s).silval := rfl
  show dlookup (remove_duplicates_between rdB G R T s).silval k = _
  rw [h1]
  exact foldl_calc_silAt_mem G R _ s k
    (betweenCalcKeys_nodup s.Pulsetrain.length (betweenRes rdB s).2.2) hm

theorem within_inner_Pulsetrain (G : Row → ℕ → ℚ) (R : Row → List ℕ → ℕ → List (ℚ × ℚ))
    (g : ℕ) (uDts : List (List ℕ)) (us : List ℕ) (t : Session) :
    (within_inner G R g uDts us t).Pulsetrain = t.Pulsetrain := by
  induction us generalizing t with
  | nil => rfl
  | cons a rest ih =>
      exact (ih _).trans (calculate_silval_Pulsetrain G R _ g a)

theorem within_inner_fsamp (G : Row → ℕ → ℚ) (R : Row → List ℕ → ℕ → List (ℚ × ℚ))
    (g : ℕ) (uDts : List (List ℕ)) (us : List ℕ) (t : Session) :
    (within_inner G R g uDts us t).fsamp = t.fsamp := by
  induction us generalizing t with
  | nil => rfl
  | cons a rest ih =>
      exact (ih _).trans (calculate_silval_fsamp G R _ g a)

theorem within_inner_dtAt_ne (G : Row → ℕ → ℚ) (R : Row → List ℕ → ℕ → List (ℚ × ℚ))
    (g : ℕ) (uDts : List (List ℕ)) (us : List ℕ) (t : Session) (k : Key)
    (h : ∀ u ∈ us, k ≠ (g, u)) :
    (within_inner G R g uDts us t).dtAt k = t.dtAt k := by
  induction us generalizing t with
  | nil => rfl
  | cons a rest ih =>
      have hka : k ≠ (g, a) := h a (List.mem_cons_self a rest)
      have step : (calculate_silval G R
          { t with Dischargetimes := dinsert t.Dischargetimes (g, a) (uDts.getD a []) }
          g a).dtAt k = t.dtAt k := by
        rw [calculate_silval_dtAt_ne G R _ g a k hka]
        exact dlookup_dinsert_ne _ _ _ _ hka
      exact (ih _ (fun u hu => h u (List.mem_cons_of_mem a hu))).trans step

theorem within_inner_silAt_ne (G : Row → ℕ → ℚ) (R : Row → List ℕ → ℕ → List (ℚ × ℚ))
    (g : ℕ) (uDts : List (List ℕ)) (us : List ℕ) (t : Session) (k : Key)
    (h : ∀ u ∈ us, k ≠ (g, u)) :
    (within_inner G R g uDts us t).silAt k = t.silAt k := by
  induction us generalizing t with
  | nil => rfl
  | cons a rest ih =>
      have hka : k ≠ (g, a) := h a (List.mem_cons_self a rest)
      have step : (calculate_silval G R
          { t with Dischargetimes := dinsert t.Dischargetimes (g, a) (uDts.getD a []) }
          g a).silAt k = t.silAt k := by
        rw [calculate_silval_silAt_ne G R _ g a k hka]
        rfl
      exact (ih _ (fun u hu => h u (List.mem_cons_of_mem a hu))).trans step

theorem within_inner_at_mem (G : Row → ℕ → ℚ) (R : Row → List ℕ → ℕ → List (ℚ × ℚ))
    (g : ℕ) (uDts : List (List ℕ)) (us : List ℕ) (t : Session) (u : ℕ)
    (hnd : us.Nodup) (hm : u ∈ us) :
    (within_inner G R g uDts us t).silAt (g, u) =
      some (silOf G (t.row g u) (uDts.getD u []) t.fsamp) ∧
    (within_inner G R g uDts us t).dtAt (g, u) = some (uDts.getD u []) := by
  induction us generalizing t with
  | nil => simp at hm
  | cons a rest ih =>
      have hna : a ∉ rest := (List.nodup_cons.mp hnd).1
      have hndr : rest.Nodup := (List.nodup_cons.mp hnd).2
      simp only [within_inner]
      by_cases hu : u = a
      · subst hu
        have hne : ∀ u2 ∈ rest, ((g, u) : Key) ≠ (g, u2) := by
          intro u2 hu2 hc
          have hc2 : u = u2 := congrArg Prod.snd hc
          subst hc2
          exact hna hu2
        constructor
        · rw [within_inner_silAt_ne G R g uDts rest _ _ hne,
            calculate_silval_silAt_self]
          simp only [Session.dtAt, dlookup_dinsert_self, Option.getD_some]
          rfl
        · rw [within_inner_dtAt_ne G R g uDts rest _ _ hne,
            calculate_silval_dtAt_self]
          simp only [Session.dtAt, dlookup_dinsert_self, Option.getD_some]
      · have hmr : u ∈ rest := by
          rcases List.mem_cons.mp hm with h | h
          · exact absurd h hu
          · exact h
        have hres := ih (calculate_silval G R
          { t with Dischargetimes := dinsert t.Dischargetimes (g, a) (uDts.getD a []) }
          g a) hndr hmr
        rw [calculate_silval_row, calculate_silval_fsamp] at hres
        exact hres

theorem within_inner_reflects_general (G : Row → ℕ → ℚ)
    (R : Row → List ℕ → ℕ → List (ℚ × ℚ)) (g : ℕ) (uDts : List (List ℕ)) (m : ℕ)
    (t1 : Session) (hrows : ((t1.Pulsetrain.getD g ⟨0, []⟩).rows.length) = m) :
    reflectsAt G (within_inner G R g uDts (List.range m) t1) g := by
  intro u hu
  have hPT := within_inner_Pulsetrain G R g uDts (List.range m) t1
  have hulen : u < m := by
    rw [hPT, hrows] at hu
    exact hu
  have hmem := within_inner_at_mem G R g uDts (List.range m) t1 u
    (List.nodup_range m) (List.mem_range.mpr hulen)
  rw [hmem.1, hmem.2]
  have hrow : (within_inner G R g uDts (List.range m) t1).row g u = t1.row g u := by
    simp only [Session.row, hPT]
  rw [hrow, within_inner_fsamp, Option.getD_some]

theorem within_step_fsamp (rdW : List Row → List (List ℕ) → List (List ℕ) × List Row)
    (G : Row → ℕ → ℚ) (R : Row → List ℕ → ℕ → List (ℚ × ℚ)) (t : Session) (g : ℕ) :
    (within_step rdW G R t g).fsamp = t.fsamp := by
  simp only [within_step]
  split
  · rfl
  · rw [within_inner_fsamp]

theorem within_step_rows_ne (rdW : List Row → List (List ℕ) → List (List ℕ) × List Row)
    (G : Row → ℕ → ℚ) (R : Row → List ℕ → ℕ → List (ℚ × ℚ)) (t : Session) (g g2 : ℕ)
    (h : g2 ≠ g) :
    ((within_step rdW G R t g).Pulsetrain.getD g2 ⟨0, []⟩).rows =
      (t.Pulsetrain.getD g2 ⟨0, []⟩).rows := by
  simp only [within_step]
  split
  · rfl
  · rw [within_inner_Pulsetrain]
    show ((modifyAt t.Pulsetrain g _).getD g2 ⟨0, []⟩).rows = _
    rw [getD_modifyAt_ne _ _ _ _ _ h]

theorem within_step_dtAt_ne (rdW : List Row → List (List ℕ) → List (List ℕ) × List Row)
    (G : Row → ℕ → ℚ) (R : Row → List ℕ → ℕ → List (ℚ × ℚ)) (t : Session) (g : ℕ)
    (k : Key) (h : k.1 ≠ g) :
    (within_step rdW G R t g).dtAt k = t.dtAt k := by
  simp only [within_step]
  split
  · rfl
  · rw [within_inner_dtAt_ne _ _ _ _ _ _ _ (fun u _ hc => h (congrArg Prod.fst hc))]
    rfl

theorem within_step_silAt_ne (rdW : List Row → List (List ℕ) → List (List ℕ) × List Row)
    (G : Row → ℕ → ℚ) (R : Row → List ℕ → ℕ → List (ℚ × ℚ)) (t : Session) (g : ℕ)
    (k : Key) (h : k.1 ≠ g) :
    (within_step rdW G R t g).silAt k = t.silAt k := by
  simp only [within_step]
  split
  · rfl
  · rw [within_inner_silAt_ne _ _ _ _ _ _ _ (fun u _ hc => h (congrArg Prod.fst hc))]
    rfl

theorem within_step_reflectsAt (rdW : List Row → List (List ℕ) → List (List ℕ) × List Row)
    (G : Row → ℕ → ℚ) (R : Row → List ℕ → ℕ → List (ℚ × ℚ)) (t : Session) (g : ℕ) :
    reflectsAt G (within_step rdW G R t g) g := by
  by_cases hz : ((t.Pulsetrain.getD g ⟨0, []⟩).rows.length) = 0
  · have hstep : within_step rdW G R t g = t := by
      simp only [within_step]
      rw [if_pos hz]
    rw [hstep]
    intro u hu
    exact absurd hu (by omega)
  · have hg : g < t.Pulsetrain.length := by
      by_contra hc
      push_neg at hc
      rw [getD_oob _ _ _ hc] at hz
      exact hz rfl
    show reflectsAt G (within_step rdW G R t g) g
    simp only [within_step]
    rw [if_neg hz]
    exact within_inner_reflects_general G R g _ _ _ (by
      show ((modifyAt t.Pulsetrain g _).getD g ⟨0, []⟩).rows.length = _
      rw [getD_modifyAt_self _ _ _ _ hg])

theorem foldl_within_not_mem (rdW : List Row → List (List ℕ) → List (List ℕ) × List Row)
    (G : Row → ℕ → ℚ) (R : Row → List ℕ → ℕ → List (ℚ × ℚ)) (l : List ℕ) (t : Session)
    (g : ℕ) (h : g ∉ l) :
    ((l.foldl (within_step rdW G R) t).Pulsetrain.getD g ⟨0, []⟩).rows =
      (t.Pulsetrain.getD g ⟨0, []⟩).rows ∧
    (∀ u, (l.foldl (within_step rdW G R) t).dtAt (g, u) = t.dtAt (g, u)) ∧
    (∀ u, (l.foldl (within_step rdW G R) t).silAt (g, u) = t.silAt (g, u)) ∧
    (l.foldl (within_step rdW G R) t).fsamp = t.fsamp := by
  induction l generalizing t with
  | nil => exact ⟨rfl, fun _ => rfl, fun _ => rfl, rfl⟩
  | cons a rest ih =>
      have hga : g ≠ a := fun hc => h (hc ▸ List.mem_cons_self a rest)
      have hgr : g ∉ rest := fun hc => h (List.mem_cons_of_mem a hc)
      have hstep := ih (within_step rdW G R t a) hgr
      refine ⟨hstep.1.trans (within_step_rows_ne rdW G R t a g hga), ?_, ?_,
        hstep.2.2.2.trans (within_step_fsamp rdW G R t a)⟩
      · intro u
        exact (hstep.2.1 u).trans (within_step_dtAt_ne rdW G R t a (g, u) hga)
      · intro u
        exact (hstep.2.2.1 u).trans (within_step_silAt_ne rdW G R t a (g, u) hga)

theorem foldl_within_reflectsAt (rdW : List Row → List (List ℕ) → List (List ℕ) × List Row)
    (G : Row → ℕ → ℚ) (R : Row → List ℕ → ℕ → List (ℚ × ℚ)) (l : List ℕ) (t : Session)
    (g : ℕ) (hnd : l.Nodup) (hm : g ∈ l) :
    reflectsAt G (l.foldl (within_step rdW G R) t) g := by
  induction l generalizing t with
  | nil => simp at hm
  | cons a rest ih =>
      have hna : a ∉ rest := (List.nodup_cons.mp hnd).1
      have hndr : rest.Nodup := (List.nodup_cons.mp hnd).2
      simp only [List.foldl_cons]
      by_cases hg : g = a
      · subst hg
        have hrf : reflectsAt G (within_step rdW G R t g) g :=
          within_step_reflectsAt rdW G R t g
        have hpres := foldl_within_not_mem rdW G R rest (within_step rdW G R t g) g hna
        intro u hu
        have hu2 : u < ((within_step rdW G R t g).Pulsetrain.getD g ⟨0, []⟩).rows.length := by
          rw [hpres.1] at hu
          exact hu
        have hval := hrf u hu2
        have hrow : (rest.foldl (within_step rdW G R) (within_step rdW G R t g)).row g u =
            (within_step rdW G R t g).row g u := by
          simp only [Session.row, hpres.1]
        rw [hpres.2.2.1 u, hrow, hpres.2.1 u, hpres.2.2.2]
        exact hval
      · have hgr : g ∈ rest := (List.mem_cons.mp hm).resolve_left hg
        exact ih (within_step rdW G R t a) hndr hgr

/-- Within-grid duplicate removal replaces each grid's units and then
recomputes each surviving unit's SIL: afterwards every unit's stored SIL
reflects its current (post-removal) pulse train and discharge times. -/
theorem remove_duplicates_within_reflects
    (rdW : List Row → List (List ℕ) → List (List ℕ) × List Row)
    (G : Row → ℕ → ℚ) (R : Row → List ℕ → ℕ → List (ℚ × ℚ)) (s : Session) (g : ℕ)
    (hg : g < s.Pulsetrain.length) :
    reflectsAt G (remove_duplicates_within rdW G R s) g :=
  foldl_within_reflectsAt rdW G R (List.range s.Pulsetrain.length) s g
    (List.nodup_range _) (List.mem_range.mpr hg)

end DedupLemmas

section ClaimC6

/-- After `calculate_silval`, the stored SIL of unit `(g, u)` is the SIL
function of that unit's current pulse train and discharge times. -/
theorem calculate_silval_reflects (G : Row → ℕ → ℚ) (R : Row → List ℕ → ℕ → List (ℚ × ℚ))
    (t : Session) (g u : ℕ) :
    (calculate_silval G R t g u).silAt (g, u) =
      some (silOf G ((calculate_silval G R t g u).row g u)
        (((calculate_silval G R t g u).dtAt (g, u)).getD [])
        ((calculate_silval G R t g u).fsamp)) := by
  rw [calculate_silval_silAt_self, calculate_silval_row, calculate_silval_dtAt_self,
    calculate_silval_fsamp]
  rfl

/-- C6 (amended): the single-window filter update, the full-signal filter
extension, undo, a processed unit of the batch outlier-removal and batch
filter-update loops, and within-grid duplicate removal end by recomputing the
affected unit's stored SIL, which therefore reflects the mutated pulse train
and discharge times.  But flag-for-deletion and the single-unit outlier
removal mutate the unit without recomputing its stored SIL, and between-grid
duplicate removal computes the stored SILs from the pre-removal collections
(lines 1724 before 1741-1742; `new_silval` is never installed), so in those
cases the stored SIL is stale. -/
theorem C6_sil_recomputation (ef : Row → List ℕ → List ℤ → ℕ → Row × List ℕ)
    (ro : Row → List ℕ → List ℕ) (uf : ℕ → List ℕ → Row × List ℕ)
    (rdW : List Row → List (List ℕ) → List (List ℕ) × List Row)
    (rdB : List Row → List (List ℕ) → List ℕ → List (List ℕ) × List Row × List ℕ)
    (G : Row → ℕ → ℚ) (R : Row → List ℕ → ℕ → List (ℚ × ℚ))
    (s : Session) (g u : ℕ) (idx : List ℤ) (L : ℤ) (T : ℕ) :
    (idx.isEmpty = false →
      (update_mu_filter ef G R s g u idx).silAt (g, u) =
        some (silOf G ((update_mu_filter ef G R s g u idx).row g u)
          (((update_mu_filter ef G R s g u idx).dtAt (g, u)).getD [])
          ((update_mu_filter ef G R s g u idx).fsamp))) ∧
    (idx.isEmpty = false →
      (extend_mu_filter ef G R s g u L idx).silAt (g, u) =
        some (silOf G ((extend_mu_filter ef G R s g u L idx).row g u)
          (((extend_mu_filter ef G R s g u L idx).dtAt (g, u)).getD [])
          ((extend_mu_filter ef G R s g u L idx).fsamp))) ∧
    ((flag_mu s g u).silAt (g, u) = s.silAt (g, u) ∧
      (flag_mu s g u).dtAt (g, u) = some [1, s.fsamp]) ∧
    ((remove_outliers_button ro s g u).silAt (g, u) = s.silAt (g, u)) ∧
    (∀ bp, s.backupPT = some bp →
      (undo_button G R s g u).silAt (g, u) =
        some (silOf G ((undo_button G R s g u).row g u)
          (((undo_button G R s g u).dtAt (g, u)).getD [])
          ((undo_button G R s g u).fsamp))) ∧
    (((s.dtAt (g, u)).getD []).length > 1 →
      (outlier_step ro G R s (g, u)).silAt (g, u) =
        some (silOf G ((outlier_step ro G R s (g, u)).row g u)
          (((outlier_step ro G R s (g, u)).dtAt (g, u)).getD [])
          ((outlier_step ro G R s (g, u)).fsamp))) ∧
    (((s.dtAt (g, u)).getD []).length > 1 →
      (filter_step uf G R s (g, u)).silAt (g, u) =
        some (silOf G ((filter_step uf G R s (g, u)).row g u)
          (((filter_step uf G R s (g, u)).dtAt (g, u)).getD [])
          ((filter_step uf G R s (g, u)).fsamp))) ∧
    (∀ g2, g2 < s.Pulsetrain.length →
      reflectsAt G (remove_duplicates_within rdW G R s) g2) ∧
    (∀ k2, k2 ∈ betweenCalcKeys s.Pulsetrain.length (betweenRes rdB s).2.2 →
      (remove_duplicates_between rdB G R T s).silAt k2 =
        some (silOf G (s.row k2.1 k2.2) ((s.dtAt k2).getD []) s.fsamp)) := by
  refine ⟨?_, ?_, ?_, ?_, ?_, ?_, ?_, ?_, ?_⟩
  · intro hidx
    simp only [update_mu_filter, hidx, Bool.false_eq_true, if_false]
    split
    · exact calculate_silval_reflects G R _ g u
    · exact calculate_silval_reflects G R _ g u
  · intro hidx
    simp only [extend_mu_filter, hidx, Bool.false_eq_true, if_false]
    exact calculate_silval_reflects G R _ g u
  · constructor
    · simp [flag_mu, Session.silAt]
    · simp [flag_mu, Session.dtAt, dlookup_dinsert_self]
  · simp only [remove_outliers_button, Session.silAt]
    split
    · rfl
    · split <;> rfl
  · intro bp hbp
    simp only [undo_button, hbp]
    exact calculate_silval_reflects G R _ g u
  · intro hdt
    simp only [outlier_step]
    rw [if_pos hdt]
    exact calculate_silval_reflects G R _ g u
  · intro hdt
    simp only [filter_step]
    rw [if_pos hdt]
    exact calculate_silval_reflects G R _ g u
  · intro g2 hg2
    exact remove_duplicates_within_reflects rdW G R s g2 hg2
  · intro k2 hk2
    exact remove_duplicates_between_silAt rdB G R T s k2 hk2


/-- C6 counterexample: flagging unit `(0, 0)` for deletion mutates its pulse
train and discharge times (to the sentinel of length 2) but leaves the stale
SIL 9/10 stored; a recomputation on the mutated data would store 0, whatever
`getsil` is, since the sentinel has fewer than 3 discharge times. -/
theorem C6_flag_keeps_stale_sil :
    (flag_mu sessC6 0 0).silAt (0, 0) = some (9 / 10) ∧
    (((flag_mu sessC6 0 0).dtAt (0, 0)).getD []).length < 3 ∧
    some ((9 : ℚ) / 10) ≠ some (0 : ℚ) := by
  refine ⟨rfl, by decide, by norm_num⟩

/-- Witness for `C6_sil_recomputation`: a locked single-window update on
`sessC6` stores the SIL recomputed from the post-update data. -/
theorem C6_sil_recomputation_witness :
    (update_mu_filter (fun _ _ _ _ => ([3, 3], [7])) (fun _ _ => 1 / 2) (fun _ _ _ => [])
        sessC6 0 0 [0]).silAt (0, 0) =
      some (silOf (fun _ _ => 1 / 2)
        ((update_mu_filter (fun _ _ _ _ => ([3, 3], [7])) (fun _ _ => 1 / 2) (fun _ _ _ => [])
            sessC6 0 0 [0]).row 0 0)
        (((update_mu_filter (fun _ _ _ _ => ([3, 3], [7])) (fun _ _ => 1 / 2) (fun _ _ _ => [])
            sessC6 0 0 [0]).dtAt (0, 0)).getD [])
        ((update_mu_filter (fun _ _ _ _ => ([3, 3], [7])) (fun _ _ => 1 / 2) (fun _ _ _ => [])
            sessC6 0 0 [0]).fsamp)) :=
  (C6_sil_recomputation (fun _ _ _ _ => ([3, 3], [7])) (fun _ _ => [])
    (fun _ d => ([], d)) (fun _ d => (d, [])) (fun _ d _ => (d, [], []))
    (fun _ _ => 1 / 2) (fun _ _ _ => []) sessC6 0 0 [0] 2 2).1 (by decide)

end ClaimC6

end MUedit
